import Mathlib

/-!
# SPI FRAM driver (`Drivers/FRAM/SPI-FRAM.c`, `Drivers/FRAM/SPI-FRAM.h`)

A shallow embedding of the FM25V02A driver.  Bytes and 32-bit words are natural
numbers; every C cast to `NMX_uint8` is an explicit `% 256`.  The bus is an explicit
state: the log of exchanges handed to the transport, and the bytes the device clocks
out.  The two polling loops take a bound on their number of iterations and yield
`none` when the bound is reached before the loop condition turns false.
-/

namespace FRAM

/-! ## Constants and types of `SPI-FRAM.h` -/

/-- FRAM size in bytes (`#define FRAM_SIZE 0x40000`, in the device block of the
header). -/
def FRAM_SIZE : Nat := 0x40000

/-- Function return codes (`typedef enum { ... } ReturnType`). -/
inductive ReturnType where
  | FRAM_Success
  | FRAM_AddressInvalid
  | FRAM_RegAddressInvalid
  | FRAM_MemoryOverflow
  | FRAM_NoInformationAvailable
  | FRAM_OperationOngoing
  | FRAM_OperationTimeOut
  | FRAM_WriteFailed
  | FRAM_SectorProtected
  | FRAM_SectorUnprotected
  | FRAM_SectorProtectFailed
  | FRAM_SectorUnprotectFailed
  | FRAM_SectorLocked
  | FRAM_SectorUnlocked
  | FRAM_SectorLockDownFailed
  | FRAM_WrongType
  deriving DecidableEq, Repr

open ReturnType

def SPI_FRAM_WRITE_STATUS_INS : Nat := 0x01
def SPI_FRAM_READ_STATUS_INS : Nat := 0x05
def SPI_FRAM_WRITE_INS : Nat := 0x02
def SPI_FRAM_READ_INS : Nat := 0x03
def SPI_FRAM_READ_ID : Nat := 0x9F
def SPI_FRAM_SLEEP : Nat := 0xB9
def SPI_FRAM_WRITE_DISABLE : Nat := 0x04
def SPI_FRAM_WRITE_ENABLE : Nat := 0x06

def SPI_FRAM_WPEN : Nat := 0x80
def SPI_FRAM_BP1 : Nat := 0x08
def SPI_FRAM_BP0 : Nat := 0x04
def SPI_FRAM_WE : Nat := 0x02

/-- Block protection levels (`typedef enum { ... } ProtectedRows`). -/
inductive ProtectedRows where
  | SPI_FRAM_PROTECTED_ALL_UNLOCKED
  | SPI_FRAM_PROTECTED_1_4_UPPER
  | SPI_FRAM_PROTECTED_1_2_UPPER
  | SPI_FRAM_PROTECTED_ALL_LOCKED
  deriving DecidableEq, Repr

/-- The integer value of each enumerator of `ProtectedRows`. -/
def ProtectedRows.toNat : ProtectedRows → Nat
  | .SPI_FRAM_PROTECTED_ALL_UNLOCKED => 0x00
  | .SPI_FRAM_PROTECTED_1_4_UPPER => 0x01
  | .SPI_FRAM_PROTECTED_1_2_UPPER => 0x02
  | .SPI_FRAM_PROTECTED_ALL_LOCKED => 0x03

/-! ## The transport (external collaborator) -/

/-- Modelled from the spec: the bus-acquire and bus-release markers handed to the
transport.  The driver names three of them; their type is declared outside the
repository.  `OpsInitTransfer` keeps the bus asserted for a following stream,
`OpsEndTransfer` terminates the transaction. -/
inductive SpiConfigOptions where
  | OpsWakeUp
  | OpsInitTransfer
  | OpsEndTransfer
  deriving DecidableEq, Repr

open SpiConfigOptions

/-- One call of the transport primitive: the outbound stream, the length of the inbound
stream (`none` when the driver passes `NULL_PTR`), and the two markers. -/
structure Exchange where
  char_stream_send : List Nat
  char_stream_recv : Option Nat
  optBefore : SpiConfigOptions
  optAfter : SpiConfigOptions
  deriving DecidableEq, Repr

/-- The bus as the driver sees it: `log` holds the exchanges performed so far, oldest
first; `miso` is the sequence of bytes the device clocks out during inbound streams and
`pos` counts how many of them have been consumed. -/
structure Bus where
  log : List Exchange
  miso : Nat → Nat
  pos : Nat

/-- Modelled from the spec: the transport primitive `Serialize_SPI`, an external
collaborator whose code is not in the repository.  It takes the outbound stream, the
inbound stream and the two markers, and performs one blocking exchange.  The exchange
is appended to the log; an inbound stream of length `n` is filled with the next `n`
bytes of the device, and a null inbound stream receives nothing. -/
def Serialize_SPI (char_stream_send : List Nat) (char_stream_recv : Option Nat)
    (optBefore optAfter : SpiConfigOptions) (b : Bus) : List Nat × Bus :=
  match char_stream_recv with
  | none =>
    ([], Bus.mk (b.log ++ [Exchange.mk char_stream_send none optBefore optAfter])
          b.miso b.pos)
  | some n =>
    ((List.range n).map (fun i => b.miso (b.pos + i) % 256),
      Bus.mk (b.log ++ [Exchange.mk char_stream_send (some n) optBefore optAfter])
        b.miso (b.pos + n))

/-- The C operator `~` on an operand promoted to a 32-bit `int`, as a bit pattern. -/
def bitNot32 (x : Nat) : Nat := (2 ^ 32 - 1 - x % 2 ^ 32) % 2 ^ 32

/-! ## The driver (`SPI-FRAM.c`) -/

/-- Function `Build_Address_Stream(udAddr, cCMD, chars)`: the four bytes stored into `chars`. -/
def Build_Address_Stream (udAddr cCMD : Nat) : List Nat :=
  let udAddr := udAddr &&& 0x0003FFFF
  [cCMD % 256, ((udAddr >>> 16) &&& 0x3F) % 256, (udAddr >>> 8) % 256, udAddr % 256]

/-- Function `FRAM_ReadStatusRegister(ucpStatusRegister)`: the result, the byte stored through
`ucpStatusRegister`, and the bus afterwards. -/
def FRAM_ReadStatusRegister (b : Bus) : ReturnType × Nat × Bus :=
  let chars := SPI_FRAM_READ_STATUS_INS % 256
  let r := Serialize_SPI [chars] (some 1) OpsWakeUp OpsEndTransfer b
  (FRAM_Success, r.1.headD 0, r.2)

/-- The loop `do { FRAM_ReadStatusRegister(&ucSR); } while (~ucSR & SPI_FRAM_WE);` of
`FRAM_WriteEnable`, run for at most `fuel` iterations. -/
def FRAM_WriteEnable_poll : Nat → Bus → Option Bus
  | 0, _ => none
  | fuel + 1, b =>
    let r := FRAM_ReadStatusRegister b
    let ucSR := r.2.1
    if bitNot32 ucSR &&& SPI_FRAM_WE ≠ 0 then FRAM_WriteEnable_poll fuel r.2.2
    else some r.2.2

/-- Function `FRAM_WriteEnable()`, its polling loop bounded by `fuel`. -/
def FRAM_WriteEnable (fuel : Nat) (b : Bus) : Option (ReturnType × Bus) :=
  let cWREN := SPI_FRAM_WRITE_ENABLE
  let r := Serialize_SPI [cWREN] none OpsWakeUp OpsEndTransfer b
  match FRAM_WriteEnable_poll fuel r.2 with
  | none => none
  | some b1 => some (FRAM_Success, b1)

/-- The loop `do { FRAM_ReadStatusRegister(&ucSR); } while (ucSR & SPI_NAND_WE);` of
`FRAM_WriteDisable`, run for at most `fuel` iterations.  The header does not define
`SPI_NAND_WE`; its value is a parameter. -/
def FRAM_WriteDisable_poll (SPI_NAND_WE : Nat) : Nat → Bus → Option Bus
  | 0, _ => none
  | fuel + 1, b =>
    let r := FRAM_ReadStatusRegister b
    let ucSR := r.2.1
    if ucSR &&& SPI_NAND_WE ≠ 0 then FRAM_WriteDisable_poll SPI_NAND_WE fuel r.2.2
    else some r.2.2

/-- Function `FRAM_WriteDisable()`, its polling loop bounded by `fuel`. -/
def FRAM_WriteDisable (SPI_NAND_WE : Nat) (fuel : Nat) (b : Bus) :
    Option (ReturnType × Bus) :=
  let cWRDI := SPI_FRAM_WRITE_DISABLE
  let r := Serialize_SPI [cWRDI] none OpsWakeUp OpsEndTransfer b
  match FRAM_WriteDisable_poll SPI_NAND_WE fuel r.2 with
  | none => none
  | some b1 => some (FRAM_Success, b1)

/-- Function `FRAM_WriteStatusRegister(ucpStatusRegister)`; the argument is the byte the pointer
refers to. -/
def FRAM_WriteStatusRegister (ucpStatusRegister : Nat) (fuel : Nat) (b : Bus) :
    Option (ReturnType × Bus) :=
  let chars := [SPI_FRAM_WRITE_STATUS_INS % 256, ucpStatusRegister]
  match FRAM_WriteEnable fuel b with
  | none => none
  | some r1 =>
    let r2 := Serialize_SPI chars none OpsWakeUp OpsEndTransfer r1.2
    some (FRAM_Success, r2.2)

/-- Function `FRAM_Read(udAddr, pArray, udNrOfElementsInArray)`: the result, the contents of the
caller's buffer afterwards, and the bus afterwards. -/
def FRAM_Read (udAddr : Nat) (pArray : List Nat) (udNrOfElementsInArray : Nat) (b : Bus) :
    ReturnType × List Nat × Bus :=
  if udAddr ≥ FRAM_SIZE then (FRAM_AddressInvalid, pArray, b)
  else
    let chars := Build_Address_Stream udAddr SPI_FRAM_READ_INS
    let r := Serialize_SPI chars (some udNrOfElementsInArray) OpsWakeUp OpsEndTransfer b
    (FRAM_Success, r.1 ++ pArray.drop udNrOfElementsInArray, r.2)

/-- Function `FRAM_Write(udAddr, pArray, udNrOfElementsInArray)`. -/
def FRAM_Write (udAddr : Nat) (pArray : List Nat) (udNrOfElementsInArray : Nat)
    (fuel : Nat) (b : Bus) : Option (ReturnType × Bus) :=
  if udAddr ≥ FRAM_SIZE then some (FRAM_AddressInvalid, b)
  else
    match FRAM_WriteEnable fuel b with
    | none => none
    | some r1 =>
      let chars := Build_Address_Stream udAddr SPI_FRAM_WRITE_INS
      let r2 := Serialize_SPI chars none OpsWakeUp OpsInitTransfer r1.2
      let r3 := Serialize_SPI (pArray.take udNrOfElementsInArray) none
        OpsWakeUp OpsEndTransfer r2.2
      some (FRAM_Success, r3.2)

/-- Function `FRAM_ReadDeviceIdentification(devArray)`.  The outbound stream points at `&chars`,
a name the function does not declare; the byte stored there is a parameter.  The local
`cRead_ID` holds the opcode and is not used. -/
def FRAM_ReadDeviceIdentification (chars : Nat) (devArray : List Nat) (b : Bus) :
    ReturnType × List Nat × Bus :=
  let _cRead_ID := SPI_FRAM_READ_ID % 256
  let r := Serialize_SPI [chars] (some 9) OpsWakeUp OpsEndTransfer b
  (FRAM_Success, r.1 ++ devArray.drop 9, r.2)

/-- Function `FRAM_Unlock(pr)`. -/
def FRAM_Unlock (pr : ProtectedRows) (fuel : Nat) (b : Bus) : Option (ReturnType × Bus) :=
  let chars := ((pr.toNat % 256) <<< 2) % 256
  match FRAM_WriteStatusRegister chars fuel b with
  | none => none
  | some r => some (FRAM_Success, r.2)

/-- Function `FRAM_Sleep()`. -/
def FRAM_Sleep (b : Bus) : ReturnType × Bus :=
  let cSLP := SPI_FRAM_SLEEP
  let r := Serialize_SPI [cSLP] none OpsWakeUp OpsEndTransfer b
  (FRAM_Success, r.2)

/-! ## Exchanges the driver issues -/

/-- The Write-Enable exchange: `[0x06]`, no inbound stream. -/
def wrenExchange : Exchange := Exchange.mk [0x06] none OpsWakeUp OpsEndTransfer

/-- The Write-Disable exchange: `[0x04]`, no inbound stream. -/
def wrdiExchange : Exchange := Exchange.mk [0x04] none OpsWakeUp OpsEndTransfer

/-- A status read: `[0x05]` out, one byte in. -/
def rdsrExchange : Exchange := Exchange.mk [0x05] (some 1) OpsWakeUp OpsEndTransfer

/-- The byte the device returns to the `i`-th status read issued from bus state `b`. -/
def statusAt (b : Bus) (i : Nat) : Nat := b.miso (b.pos + i) % 256

/-- A bus on which nothing has happened yet, in front of a device that clocks out
`miso`. -/
def freshBus (miso : Nat → Nat) : Bus := Bus.mk [] miso 0

/-- A device whose status byte is `0x40` (bit 1 clear) for the first `k` reads and
`0x42` (bit 1 set) from then on. -/
def deviceReadyAfter (k : Nat) : Nat → Nat := fun i => if i < k then 0x40 else 0x42

/-- The exchanges a call appended to the log: the log after the call without the log
before it. -/
def callTrace (before after : Bus) : List Exchange := after.log.drop before.log.length

/-- Two bus states whose devices clock out the same next `m` bytes. -/
def sameResponses (m : Nat) (b1 b2 : Bus) : Prop :=
  ∀ i, i < m → statusAt b1 i = statusAt b2 i

/-- The first byte of every bus transaction in a trace.  An exchange opens a transaction
unless the bus is held: the exchange before it was released with `OpsInitTransfer`, which
keeps the bus asserted for the stream that follows. -/
def transactionOpcodes : Bool → List Exchange → List Nat
  | _, [] => []
  | held, e :: es =>
    (if held then [] else e.char_stream_send.head?.toList)
      ++ transactionOpcodes (decide (e.optAfter = OpsInitTransfer)) es

/-- Appends exchanges that have no inbound stream to the log of a bus. -/
def appendLog (t : List Exchange) (b : Bus) : Bus := Bus.mk (b.log ++ t) b.miso b.pos

/-- The outcome of a call does not depend on what came before it: if `op` started from
`b1` returns, then started from any `b2` whose device gives the responses the first call
received, it returns the same result, appends the same exchanges and consumes the same
number of device bytes.  The logs and cursors of `b1` and `b2` are unrelated. -/
def SameOutcome {α : Type} (op : Bus → Option (α × Bus)) (b1 b2 : Bus) : Prop :=
  ∀ r c1, op b1 = some (r, c1) → sameResponses (c1.pos - b1.pos) b1 b2 →
    ∃ c2, op b2 = some (r, c2) ∧ callTrace b2 c2 = callTrace b1 c1 ∧
      c2.pos - b2.pos = c1.pos - b1.pos

/-! ## The status register of the device -/

/-- Modelled from the spec: the status register of the FRAM device, which is hardware
and not code of the repository.  The byte `sr` is the status register: bit 7
write-protect-enable, bit 6 reserved and read as 1, bits 3-2 block protect, bit 1
write-enable latch.  The flag `held` says that the last exchange left the bus asserted,
so that the next stream continues its transaction and carries no opcode. -/
structure Device where
  sr : Nat
  held : Bool

/-- Modelled from the spec: the effect of one exchange on the status register of the
device.  Write-Enable sets the latch and Write-Disable clears it; a status write is
accepted only with the latch set, persists the write-protect-enable and block-protect
bits of the new value and clears the latch; a data write uses the latch up; any other
exchange leaves the register as it is. -/
def Device.step (d : Device) (e : Exchange) : Device :=
  let held := decide (e.optAfter = OpsInitTransfer)
  if d.held then Device.mk d.sr held
  else
    match e.char_stream_send with
    | 0x06 :: _ => Device.mk (d.sr ||| 0x02) held
    | 0x04 :: _ => Device.mk (d.sr &&& 0xFD) held
    | 0x01 :: v :: _ =>
      if d.sr &&& 0x02 ≠ 0 then Device.mk ((v &&& 0x8C) ||| 0x40) held
      else Device.mk d.sr held
    | 0x02 :: _ => Device.mk (d.sr &&& 0xFD) held
    | _ => Device.mk d.sr held

/-- Modelled from the spec: the bytes the device answers to the status reads of a trace,
in order.  A status read is an exchange that opens a transaction with opcode `0x05`; the
device clocks out its status register for every inbound byte. -/
def Device.statusAnswers : Device → List Exchange → List Nat
  | _, [] => []
  | d, e :: es =>
    (if d.held = false ∧ e.char_stream_send.head? = some 0x05 then
        List.replicate (e.char_stream_recv.getD 0) d.sr
      else [])
      ++ Device.statusAnswers (d.step e) es

/-! ## Shared lemmas -/

theorem FRAM_ReadStatusRegister_eq (b : Bus) :
    FRAM_ReadStatusRegister b
      = (FRAM_Success, statusAt b 0, Bus.mk (b.log ++ [rdsrExchange]) b.miso (b.pos + 1)) := by
  rfl

theorem statusAt_lt (b : Bus) (i : Nat) : statusAt b i < 256 :=
  Nat.mod_lt _ (by decide)

theorem statusAt_next (b : Bus) (l : List Exchange) (i : Nat) :
    statusAt (Bus.mk l b.miso (b.pos + 1)) i = statusAt b (i + 1) := by
  simp only [statusAt]
  rw [Nat.add_assoc, Nat.add_comm 1 i]

/-- On a byte, the continuation test `~ucSR & SPI_FRAM_WE` of `FRAM_WriteEnable` is
non-zero exactly when bit 1 is clear. -/
theorem writeEnable_test_iff (s : Nat) (hs : s < 256) :
    bitNot32 s &&& SPI_FRAM_WE ≠ 0 ↔ s &&& 0x02 = 0 := by
  interval_cases s <;> decide

theorem replicate_rdsr_shift (l : List Exchange) (k : Nat) :
    l ++ [rdsrExchange] ++ List.replicate (k + 1) rdsrExchange
      = l ++ List.replicate (k + 1 + 1) rdsrExchange := by
  rw [List.append_assoc, List.singleton_append, ← List.replicate_succ]

/-- The Write-Enable loop returns after the first status byte with bit 1 set. -/
theorem FRAM_WriteEnable_poll_done (k : Nat) :
    ∀ (b : Bus), (∀ i, i < k → statusAt b i &&& 0x02 = 0) → statusAt b k &&& 0x02 ≠ 0 →
      ∀ fuel, k < fuel →
        FRAM_WriteEnable_poll fuel b
          = some (Bus.mk (b.log ++ List.replicate (k + 1) rdsrExchange) b.miso
              (b.pos + (k + 1))) := by
  induction k with
  | zero =>
    intro b _ hset fuel hf
    obtain ⟨f, rfl⟩ : ∃ f, fuel = f + 1 := ⟨fuel - 1, by omega⟩
    have hc : ¬ (bitNot32 (statusAt b 0) &&& SPI_FRAM_WE ≠ 0) := by
      rw [writeEnable_test_iff _ (statusAt_lt b 0)]
      exact hset
    simp only [FRAM_WriteEnable_poll, FRAM_ReadStatusRegister_eq, if_neg hc]
    rfl
  | succ k ih =>
    intro b hclear hset fuel hf
    obtain ⟨f, rfl⟩ : ∃ f, fuel = f + 1 := ⟨fuel - 1, by omega⟩
    have hc : bitNot32 (statusAt b 0) &&& SPI_FRAM_WE ≠ 0 := by
      rw [writeEnable_test_iff _ (statusAt_lt b 0)]
      exact hclear 0 (Nat.succ_pos k)
    simp only [FRAM_WriteEnable_poll, FRAM_ReadStatusRegister_eq, if_pos hc]
    rw [ih (Bus.mk (b.log ++ [rdsrExchange]) b.miso (b.pos + 1))
      (fun i hi => by rw [statusAt_next]; exact hclear (i + 1) (by omega))
      (by rw [statusAt_next]; exact hset) f (by omega)]
    simp only [replicate_rdsr_shift]
    rw [Nat.add_assoc b.pos 1 (k + 1), Nat.add_comm 1 (k + 1)]

/-- The Write-Enable loop has not returned while every status byte read so far has
bit 1 clear. -/
theorem FRAM_WriteEnable_poll_pending (fuel : Nat) :
    ∀ (b : Bus), (∀ i, i < fuel → statusAt b i &&& 0x02 = 0) →
      FRAM_WriteEnable_poll fuel b = none := by
  induction fuel with
  | zero => intro b _; rfl
  | succ f ih =>
    intro b hclear
    have hc : bitNot32 (statusAt b 0) &&& SPI_FRAM_WE ≠ 0 := by
      rw [writeEnable_test_iff _ (statusAt_lt b 0)]
      exact hclear 0 (Nat.succ_pos f)
    simp only [FRAM_WriteEnable_poll, FRAM_ReadStatusRegister_eq, if_pos hc]
    exact ih (Bus.mk (b.log ++ [rdsrExchange]) b.miso (b.pos + 1))
      (fun i hi => by rw [statusAt_next]; exact hclear (i + 1) (by omega))

/-- Function `FRAM_WriteEnable` in full: the `[0x06]` exchange, then `k + 1` status reads. -/
theorem FRAM_WriteEnable_done (b : Bus) (k : Nat)
    (hclear : ∀ i, i < k → statusAt b i &&& 0x02 = 0) (hset : statusAt b k &&& 0x02 ≠ 0)
    (fuel : Nat) (hf : k < fuel) :
    FRAM_WriteEnable fuel b
      = some (FRAM_Success,
          Bus.mk (b.log ++ [wrenExchange] ++ List.replicate (k + 1) rdsrExchange) b.miso
            (b.pos + (k + 1))) := by
  have h := FRAM_WriteEnable_poll_done k
    (Bus.mk (b.log ++ [wrenExchange]) b.miso b.pos) hclear hset fuel hf
  simp only [FRAM_WriteEnable, Serialize_SPI]
  have e : Exchange.mk [SPI_FRAM_WRITE_ENABLE] none OpsWakeUp OpsEndTransfer = wrenExchange :=
    rfl
  rw [e, h]

/-- The address stream in terms of division and remainder. -/
theorem Build_Address_Stream_arith (a c : Nat) :
    Build_Address_Stream a c
      = [c % 256, a % 262144 / 65536, a % 262144 / 256 % 256, a % 256] := by
  have h18 : a &&& 0x0003FFFF = a % 262144 := Nat.and_pow_two_sub_one_eq_mod a 18
  have h6 : ∀ x : Nat, x &&& 0x3F = x % 64 := fun x => Nat.and_pow_two_sub_one_eq_mod x 6
  simp only [Build_Address_Stream, h18, h6, Nat.shiftRight_eq_div_pow]
  refine congrArg₂ _ rfl (congrArg₂ _ ?_ (congrArg₂ _ ?_ (congrArg₂ _ ?_ rfl)))
  · omega
  · omega
  · omega

theorem land_ff (x : Nat) : x &&& 0xFF = x % 256 := Nat.and_pow_two_sub_one_eq_mod x 8

/-- The address stream of an address below the capacity, with shifts and masks. -/
theorem Build_Address_Stream_valid (a c : Nat) (ha : a < FRAM_SIZE) (hc : c < 256) :
    Build_Address_Stream a c = [c, (a >>> 16) &&& 0xFF, (a >>> 8) &&& 0xFF, a &&& 0xFF] := by
  have ha2 : a < 262144 := ha
  rw [Build_Address_Stream_arith]
  simp only [land_ff, Nat.shiftRight_eq_div_pow]
  refine congrArg₂ _ ?_ (congrArg₂ _ ?_ (congrArg₂ _ ?_ (congrArg₂ _ rfl rfl)))
  · omega
  · omega
  · omega

/-! ## Address validation -/

/-- C1: for every address at or above the capacity, and every buffer and length,
`FRAM_Read` and `FRAM_Write` return `FRAM_AddressInvalid`; the bus is left as it was (no
exchange is logged, no device byte is consumed, whatever the bound on polling) and the
caller's buffer is unchanged. -/
theorem FRAM_Read_Write_address_invalid (a : Nat) (ha : FRAM_SIZE ≤ a) (pArray : List Nat)
    (n fuel : Nat) (b : Bus) :
    FRAM_Read a pArray n b = (FRAM_AddressInvalid, pArray, b) ∧
      FRAM_Write a pArray n fuel b = some (FRAM_AddressInvalid, b) := by
  constructor
  · simp only [FRAM_Read, ge_iff_le, if_pos ha]
  · simp only [FRAM_Write, ge_iff_le, if_pos ha]

theorem FRAM_Read_Write_address_invalid_witness :
    FRAM_SIZE ≤ FRAM_SIZE ∧
      FRAM_Read FRAM_SIZE [1, 2, 3] 2 (freshBus (deviceReadyAfter 0))
        = (FRAM_AddressInvalid, [1, 2, 3], freshBus (deviceReadyAfter 0)) ∧
      FRAM_Write FRAM_SIZE [1, 2, 3] 2 0 (freshBus (deviceReadyAfter 0))
        = some (FRAM_AddressInvalid, freshBus (deviceReadyAfter 0)) :=
  ⟨Nat.le_refl _,
    FRAM_Read_Write_address_invalid FRAM_SIZE (Nat.le_refl _) [1, 2, 3] 2 0
      (freshBus (deviceReadyAfter 0))⟩

/-! ## Address encoding -/

/-- C2: for every address below the capacity and every opcode byte `c`,
`Build_Address_Stream` yields the four bytes `c`, `(a >> 16) & 0xFF`, `(a >> 8) & 0xFF`,
`a & 0xFF`; the three address bytes are the same for every opcode, and read as a
big-endian number they give back `a`. -/
theorem Build_Address_Stream_in_range (a c : Nat) (ha : a < FRAM_SIZE) (hc : c < 256) :
    Build_Address_Stream a c = [c, (a >>> 16) &&& 0xFF, (a >>> 8) &&& 0xFF, a &&& 0xFF] ∧
      (∀ d, (Build_Address_Stream a d).tail
        = [(a >>> 16) &&& 0xFF, (a >>> 8) &&& 0xFF, a &&& 0xFF]) ∧
      ((a >>> 16) &&& 0xFF) * 65536 + ((a >>> 8) &&& 0xFF) * 256 + (a &&& 0xFF) = a := by
  have ha2 : a < 262144 := ha
  refine ⟨Build_Address_Stream_valid a c ha hc, ?_, ?_⟩
  · intro d
    have h := Build_Address_Stream_valid a (d % 256) ha (Nat.mod_lt _ (by decide))
    have e : Build_Address_Stream a d = Build_Address_Stream a (d % 256) := by
      simp only [Build_Address_Stream, Nat.mod_mod]
    rw [e, h]
    rfl
  · simp only [land_ff, Nat.shiftRight_eq_div_pow]
    omega

theorem Build_Address_Stream_in_range_witness :
    0x12345 < FRAM_SIZE ∧ 0x03 < 256 ∧
      Build_Address_Stream 0x12345 0x03 = [0x03, 0x01, 0x23, 0x45] ∧
      (Build_Address_Stream 0x12345 0x02).tail = [0x01, 0x23, 0x45] :=
  ⟨by decide, by decide,
    (Build_Address_Stream_in_range 0x12345 0x03 (by decide) (by decide)).1,
    (Build_Address_Stream_in_range 0x12345 0x03 (by decide) (by decide)).2.1 0x02⟩

/-- C10: for every address, in range or not, and every opcode, the first address byte
is at most `0x03` (the top six bits of the 24-bit field are zero), the three address
bytes read big-endian are `a mod 2^18`, and the stream is that of `a & 0x3FFFF`. -/
theorem Build_Address_Stream_masked (a c : Nat) :
    ∃ b1 b2 b3, Build_Address_Stream a c = [c % 256, b1, b2, b3] ∧
      b1 ≤ 0x03 ∧ b1 >>> 2 = 0 ∧ b2 < 256 ∧ b3 < 256 ∧
      b1 * 65536 + b2 * 256 + b3 = a % 2 ^ 18 ∧
      Build_Address_Stream a c = Build_Address_Stream (a &&& 0x3FFFF) c := by
  refine ⟨a % 262144 / 65536, a % 262144 / 256 % 256, a % 256,
    Build_Address_Stream_arith a c, ?_, ?_, ?_, ?_, ?_, ?_⟩
  · omega
  · rw [Nat.shiftRight_eq_div_pow]
    omega
  · omega
  · omega
  · omega
  · have h18 : a &&& 0x3FFFF = a % 262144 := Nat.and_pow_two_sub_one_eq_mod a 18
    rw [h18, Build_Address_Stream_arith, Build_Address_Stream_arith]
    refine congrArg₂ _ rfl (congrArg₂ _ ?_ (congrArg₂ _ ?_ (congrArg₂ _ ?_ rfl)))
    · omega
    · omega
    · omega

/-! ## Data transfer -/

/-- C3: for every address below the capacity and every payload `p` of length `n`, against
a device whose status shows bit 1 clear `k` times and then set, `FRAM_Write` returns
`FRAM_Success` and appends to the log, in this order: the `[0x06]` exchange, the `k + 1`
status reads, the four bytes `[0x02, address bytes]` released with `OpsInitTransfer`,
and the payload `p` unchanged released with `OpsEndTransfer`; nothing follows. -/
theorem FRAM_Write_trace (a : Nat) (ha : a < FRAM_SIZE) (p : List Nat) (n : Nat)
    (hn : p.length = n) (b : Bus) (k : Nat)
    (hclear : ∀ i, i < k → statusAt b i &&& 0x02 = 0) (hset : statusAt b k &&& 0x02 ≠ 0)
    (fuel : Nat) (hf : k < fuel) :
    FRAM_Write a p n fuel b
      = some (FRAM_Success,
          Bus.mk (b.log ++ [wrenExchange] ++ List.replicate (k + 1) rdsrExchange
              ++ [Exchange.mk [0x02, (a >>> 16) &&& 0xFF, (a >>> 8) &&& 0xFF, a &&& 0xFF]
                    none OpsWakeUp OpsInitTransfer,
                  Exchange.mk p none OpsWakeUp OpsEndTransfer])
            b.miso (b.pos + (k + 1))) := by
  have hge : ¬ a ≥ FRAM_SIZE := Nat.not_le.mpr ha
  have hp : List.take n p = p := List.take_of_length_le (Nat.le_of_eq hn)
  have hs := Build_Address_Stream_valid a SPI_FRAM_WRITE_INS ha (by decide)
  simp only [FRAM_Write, if_neg hge, FRAM_WriteEnable_done b k hclear hset fuel hf,
    Serialize_SPI, hs, hp, List.append_assoc, List.singleton_append]
  rfl

theorem FRAM_Write_trace_witness :
    FRAM_Write 0 [0xAA, 0xBB] 2 2 (freshBus (deviceReadyAfter 1))
      = some (FRAM_Success,
          Bus.mk [wrenExchange, rdsrExchange, rdsrExchange,
              Exchange.mk [0x02, 0x00, 0x00, 0x00] none OpsWakeUp OpsInitTransfer,
              Exchange.mk [0xAA, 0xBB] none OpsWakeUp OpsEndTransfer]
            (deviceReadyAfter 1) 2) :=
  FRAM_Write_trace 0 (by decide) [0xAA, 0xBB] 2 rfl (freshBus (deviceReadyAfter 1)) 1
    (fun i hi => by interval_cases i; decide) (by decide) 2 (by decide)

/-- C4: for every address below the capacity and every length `n`, `FRAM_Read` returns
`FRAM_Success` after exactly one exchange: outbound `[0x03, address bytes]`, inbound
stream of length `n`, acquired with `OpsWakeUp` and released with `OpsEndTransfer`.  The
`n` bytes of the device are delivered into the first `n` cells of the caller's buffer;
no Write-Enable exchange and no status read is logged. -/
theorem FRAM_Read_trace (a : Nat) (ha : a < FRAM_SIZE) (pArray : List Nat) (n : Nat)
    (b : Bus) :
    FRAM_Read a pArray n b
      = (FRAM_Success,
          (List.range n).map (fun i => b.miso (b.pos + i) % 256) ++ pArray.drop n,
          Bus.mk (b.log ++ [Exchange.mk
                [0x03, (a >>> 16) &&& 0xFF, (a >>> 8) &&& 0xFF, a &&& 0xFF]
                (some n) OpsWakeUp OpsEndTransfer])
            b.miso (b.pos + n)) ∧
      ((List.range n).map (fun i => b.miso (b.pos + i) % 256)).length = n := by
  have hge : ¬ a ≥ FRAM_SIZE := Nat.not_le.mpr ha
  have hs := Build_Address_Stream_valid a SPI_FRAM_READ_INS ha (by decide)
  constructor
  · simp only [FRAM_Read, if_neg hge, Serialize_SPI, hs]
    rfl
  · simp only [List.length_map, List.length_range]

theorem FRAM_Read_trace_witness :
    0x3FFFF < FRAM_SIZE ∧
      FRAM_Read 0x3FFFF [7, 7, 7] 2 (freshBus (deviceReadyAfter 1))
        = (FRAM_Success, [0x40, 0x42, 7],
            Bus.mk [Exchange.mk [0x03, 0x03, 0xFF, 0xFF] (some 2) OpsWakeUp OpsEndTransfer]
              (deviceReadyAfter 1) 2) :=
  ⟨by decide,
    (FRAM_Read_trace 0x3FFFF (by decide) [7, 7, 7] 2 (freshBus (deviceReadyAfter 1))).1⟩

/-! ## Status register and write protection -/

/-- C5: for every status byte `v`, against a device whose status shows bit 1 clear `k`
times and then set, `FRAM_WriteStatusRegister` returns `FRAM_Success` and appends to the
log the `[0x06]` exchange, the `k + 1` status reads (the last one being the read that
shows bit 1 set), and only then one exchange with outbound stream `[0x01, v]` and no
inbound stream; `v` is sent as given. -/
theorem FRAM_WriteStatusRegister_trace (v : Nat) (b : Bus) (k : Nat)
    (hclear : ∀ i, i < k → statusAt b i &&& 0x02 = 0) (hset : statusAt b k &&& 0x02 ≠ 0)
    (fuel : Nat) (hf : k < fuel) :
    FRAM_WriteStatusRegister v fuel b
      = some (FRAM_Success,
          Bus.mk (b.log ++ [wrenExchange] ++ List.replicate (k + 1) rdsrExchange
              ++ [Exchange.mk [0x01, v] none OpsWakeUp OpsEndTransfer])
            b.miso (b.pos + (k + 1))) := by
  simp only [FRAM_WriteStatusRegister, FRAM_WriteEnable_done b k hclear hset fuel hf,
    Serialize_SPI]
  rfl

theorem FRAM_WriteStatusRegister_trace_witness :
    FRAM_WriteStatusRegister 0xFF 5 (freshBus (deviceReadyAfter 2))
      = some (FRAM_Success,
          Bus.mk [wrenExchange, rdsrExchange, rdsrExchange, rdsrExchange,
              Exchange.mk [0x01, 0xFF] none OpsWakeUp OpsEndTransfer]
            (deviceReadyAfter 2) 3) :=
  FRAM_WriteStatusRegister_trace 0xFF (freshBus (deviceReadyAfter 2)) 2
    (fun i hi => by interval_cases i <;> decide) (by decide) 5 (by decide)

/-! ## The write-enable latch -/

/-- C7: against a device whose status shows bit 1 clear for the first `k` reads and set
at the next one, `FRAM_WriteEnable` appends to the log exactly one `[0x06]` exchange
without inbound stream followed by exactly `k + 1` status reads, consumes `k + 1` device
bytes and returns `FRAM_Success` (for every bound above `k` on the loop); with `k` or
fewer iterations the loop has not returned, so it never returns on a status with bit 1
clear. -/
theorem FRAM_WriteEnable_reads (b : Bus) (k : Nat)
    (hclear : ∀ i, i < k → statusAt b i &&& 0x02 = 0) (hset : statusAt b k &&& 0x02 ≠ 0) :
    (∀ fuel, k < fuel →
      FRAM_WriteEnable fuel b
        = some (FRAM_Success,
            Bus.mk (b.log ++ [Exchange.mk [0x06] none OpsWakeUp OpsEndTransfer]
                ++ List.replicate (k + 1)
                  (Exchange.mk [0x05] (some 1) OpsWakeUp OpsEndTransfer))
              b.miso (b.pos + (k + 1)))) ∧
      (∀ fuel, fuel ≤ k → FRAM_WriteEnable fuel b = none) := by
  constructor
  · intro fuel hf
    exact FRAM_WriteEnable_done b k hclear hset fuel hf
  · intro fuel hf
    have h := FRAM_WriteEnable_poll_pending fuel
      (Bus.mk (b.log ++ [wrenExchange]) b.miso b.pos)
      (fun i hi => hclear i (Nat.lt_of_lt_of_le hi hf))
    simp only [FRAM_WriteEnable, Serialize_SPI]
    have e : Exchange.mk [SPI_FRAM_WRITE_ENABLE] none OpsWakeUp OpsEndTransfer
        = wrenExchange := rfl
    rw [e, h]

theorem FRAM_WriteEnable_reads_witness :
    FRAM_WriteEnable 3 (freshBus (deviceReadyAfter 2))
        = some (FRAM_Success,
            Bus.mk [wrenExchange, rdsrExchange, rdsrExchange, rdsrExchange]
              (deviceReadyAfter 2) 3) ∧
      FRAM_WriteEnable 2 (freshBus (deviceReadyAfter 2)) = none :=
  ⟨(FRAM_WriteEnable_reads (freshBus (deviceReadyAfter 2)) 2
      (fun i hi => by interval_cases i <;> decide) (by decide)).1 3 (by decide),
    (FRAM_WriteEnable_reads (freshBus (deviceReadyAfter 2)) 2
      (fun i hi => by interval_cases i <;> decide) (by decide)).2 2 (by decide)⟩

/-- C8: `FRAM_WriteDisable` sends `[0x04]` and polls with the mask `SPI_NAND_WE`, which
the header does not define.  With the mask `0x02` of `FRAM_WriteEnable` it returns on
the status `0x40`; with a mask `0x01` it returns on the status `0x42`, whose bit 1 is
set, and keeps polling on the status `0x41`, whose bit 1 is clear. -/
theorem FRAM_WriteDisable_mask :
    FRAM_WriteDisable 0x02 1 (freshBus (fun _ => 0x40))
        = some (FRAM_Success, Bus.mk [wrdiExchange, rdsrExchange] (fun _ => 0x40) 1) ∧
      FRAM_WriteDisable 0x01 1 (freshBus (fun _ => 0x42))
        = some (FRAM_Success, Bus.mk [wrdiExchange, rdsrExchange] (fun _ => 0x42) 1) ∧
      0x42 &&& SPI_FRAM_WE ≠ 0 ∧
      FRAM_WriteDisable 0x01 3 (freshBus (fun _ => 0x41)) = none ∧
      0x41 &&& SPI_FRAM_WE = 0 := by
  refine ⟨rfl, rfl, by decide, rfl, by decide⟩

/-! ## Device identification -/

/-- C9: `FRAM_ReadDeviceIdentification` performs one exchange with an inbound stream of
length 9 and returns `FRAM_Success`, but its outbound stream is the byte stored at
`&chars`, not the opcode held in `cRead_ID`: when that byte is `0x00` the stream sent is
`[0x00]`, which is not `[0x9F]`. -/
theorem FRAM_ReadDeviceIdentification_outbound :
    (∀ chars devArray b,
      FRAM_ReadDeviceIdentification chars devArray b
        = (FRAM_Success,
            (List.range 9).map (fun i => b.miso (b.pos + i) % 256) ++ devArray.drop 9,
            Bus.mk (b.log ++ [Exchange.mk [chars] (some 9) OpsWakeUp OpsEndTransfer])
              b.miso (b.pos + 9))) ∧
      (FRAM_ReadDeviceIdentification 0x00 [] (freshBus (fun _ => 0))).2.2.log
        = [Exchange.mk [0x00] (some 9) OpsWakeUp OpsEndTransfer] ∧
      [0x00] ≠ [SPI_FRAM_READ_ID] := by
  refine ⟨fun _ _ _ => rfl, rfl, by decide⟩

/-! ## Further shared lemmas -/

/-- When the Write-Enable loop returns, it has read `k + 1` status bytes: `k` with bit 1
clear and then one with bit 1 set. -/
theorem FRAM_WriteEnable_poll_some (fuel : Nat) :
    ∀ (b c : Bus), FRAM_WriteEnable_poll fuel b = some c →
      ∃ k, k < fuel ∧ (∀ i, i < k → statusAt b i &&& 0x02 = 0) ∧
        statusAt b k &&& 0x02 ≠ 0 ∧
        c = Bus.mk (b.log ++ List.replicate (k + 1) rdsrExchange) b.miso
              (b.pos + (k + 1)) := by
  induction fuel with
  | zero => intro b c h; simp [FRAM_WriteEnable_poll] at h
  | succ f ih =>
    intro b c h
    by_cases hc : bitNot32 (statusAt b 0) &&& SPI_FRAM_WE ≠ 0
    · simp only [FRAM_WriteEnable_poll, FRAM_ReadStatusRegister_eq, if_pos hc] at h
      obtain ⟨k, hk, hclear, hset, hcq⟩ := ih _ c h
      have h0 : statusAt b 0 &&& 0x02 = 0 :=
        (writeEnable_test_iff _ (statusAt_lt b 0)).mp hc
      refine ⟨k + 1, by omega, ?_, ?_, ?_⟩
      · intro i hi
        cases i with
        | zero => exact h0
        | succ j =>
          have := hclear j (by omega)
          rwa [statusAt_next] at this
      · rwa [statusAt_next] at hset
      · rw [hcq]
        simp only [replicate_rdsr_shift]
        rw [Nat.add_assoc b.pos 1 (k + 1), Nat.add_comm 1 (k + 1)]
    · simp only [FRAM_WriteEnable_poll, FRAM_ReadStatusRegister_eq, if_neg hc] at h
      have h0 : statusAt b 0 &&& 0x02 ≠ 0 := fun e =>
        hc ((writeEnable_test_iff _ (statusAt_lt b 0)).mpr e)
      refine ⟨0, by omega, fun i hi => absurd hi (Nat.not_lt_zero i), h0, ?_⟩
      exact (Option.some.inj h).symm

/-- When `FRAM_WriteEnable` returns, the result is `FRAM_Success` and the log has gained
the `[0x06]` exchange and `k + 1` status reads, the last one showing bit 1 set. -/
theorem FRAM_WriteEnable_some (fuel : Nat) (b : Bus) (r : ReturnType) (c : Bus)
    (h : FRAM_WriteEnable fuel b = some (r, c)) :
    r = FRAM_Success ∧
      ∃ k, k < fuel ∧ (∀ i, i < k → statusAt b i &&& 0x02 = 0) ∧
        statusAt b k &&& 0x02 ≠ 0 ∧
        c = Bus.mk (b.log ++ [wrenExchange] ++ List.replicate (k + 1) rdsrExchange) b.miso
              (b.pos + (k + 1)) := by
  simp only [FRAM_WriteEnable, Serialize_SPI] at h
  cases hp : FRAM_WriteEnable_poll fuel
      (Bus.mk (b.log ++ [Exchange.mk [SPI_FRAM_WRITE_ENABLE] none OpsWakeUp OpsEndTransfer])
        b.miso b.pos) with
  | none => rw [hp] at h; simp at h
  | some c1 =>
    rw [hp] at h
    have hrc := Option.some.inj h
    obtain ⟨k, hk, hclear, hset, hcq⟩ := FRAM_WriteEnable_poll_some fuel _ c1 hp
    have hc1 : c = c1 := (congrArg Prod.snd hrc).symm
    refine ⟨(congrArg Prod.fst hrc).symm, k, hk, hclear, hset, ?_⟩
    rw [hc1, hcq]
    rfl

/-! ## Status read and sleep -/

/-- C12: `FRAM_ReadStatusRegister` performs exactly one exchange, with outbound stream
`[0x05]` and an inbound stream of length 1, stores the one received byte unchanged as
the status value, and returns `FRAM_Success`, whatever byte the device returns. -/
theorem FRAM_ReadStatusRegister_trace (b : Bus) :
    FRAM_ReadStatusRegister b
        = (FRAM_Success, b.miso b.pos % 256,
            Bus.mk (b.log ++ [Exchange.mk [0x05] (some 1) OpsWakeUp OpsEndTransfer]) b.miso
              (b.pos + 1)) ∧
      (Serialize_SPI [0x05] (some 1) OpsWakeUp OpsEndTransfer b).1
        = [(FRAM_ReadStatusRegister b).2.1] ∧
      (∀ s, s < 256 → (FRAM_ReadStatusRegister (Bus.mk b.log (fun _ => s) b.pos)).2.1 = s) := by
  refine ⟨rfl, rfl, ?_⟩
  intro s hs
  show s % 256 = s
  exact Nat.mod_eq_of_lt hs

theorem FRAM_ReadStatusRegister_trace_witness :
    0xC2 < 256 ∧ (FRAM_ReadStatusRegister (Bus.mk [] (fun _ => 0xC2) 0)).2.1 = 0xC2 :=
  ⟨by decide, (FRAM_ReadStatusRegister_trace (freshBus (fun _ => 0))).2.2 0xC2 (by decide)⟩

/-- C14: `FRAM_Sleep` performs exactly one exchange, with outbound stream `[0xB9]` and
no inbound stream, consumes no device byte (no Write-Enable, no status read), and
returns `FRAM_Success`. -/
theorem FRAM_Sleep_trace (b : Bus) :
    FRAM_Sleep b
      = (FRAM_Success,
          Bus.mk (b.log ++ [Exchange.mk [0xB9] none OpsWakeUp OpsEndTransfer]) b.miso
            b.pos) := by
  rfl

/-! ## The loop condition of `FRAM_WriteEnable` -/

/-- C18: for every status byte `s`, the test `~s & SPI_FRAM_WE` with `s` promoted to a
32-bit `int` is non-zero exactly when bit 1 of `s` is clear, and it is the same for any
two bytes that agree on bit 1; one iteration of the loop continues on such a byte and
ends otherwise.  The bytes `0x40` and `0xC0` continue the loop, `0x42` and `0x02` end
it. -/
theorem FRAM_WriteEnable_condition (s : Nat) (hs : s < 256) :
    (bitNot32 s &&& SPI_FRAM_WE ≠ 0 ↔ s.testBit 1 = false) ∧
      (∀ t, t < 256 → t.testBit 1 = s.testBit 1 →
        bitNot32 t &&& SPI_FRAM_WE = bitNot32 s &&& SPI_FRAM_WE) ∧
      (∀ l p, FRAM_WriteEnable_poll 1 (Bus.mk l (fun _ => s) p) = none
        ↔ s.testBit 1 = false) ∧
      bitNot32 0x40 &&& SPI_FRAM_WE ≠ 0 ∧ bitNot32 0xC0 &&& SPI_FRAM_WE ≠ 0 ∧
      bitNot32 0x42 &&& SPI_FRAM_WE = 0 ∧ bitNot32 0x02 &&& SPI_FRAM_WE = 0 := by
  have key : ∀ u, u < 256 →
      bitNot32 u &&& SPI_FRAM_WE = if u.testBit 1 then 0 else 2 := by
    intro u hu
    interval_cases u <;> rfl
  have h1 : bitNot32 s &&& SPI_FRAM_WE ≠ 0 ↔ s.testBit 1 = false := by
    rw [key s hs]
    cases s.testBit 1 <;> simp
  refine ⟨h1, ?_, ?_, by decide, by decide, by decide, by decide⟩
  · intro t ht hts
    rw [key t ht, key s hs, hts]
  · intro l p
    have hst : statusAt (Bus.mk l (fun _ => s) p) 0 = s := Nat.mod_eq_of_lt hs
    by_cases hc : bitNot32 s &&& SPI_FRAM_WE ≠ 0
    · have hp : FRAM_WriteEnable_poll 1 (Bus.mk l (fun _ => s) p) = none := by
        simp only [FRAM_WriteEnable_poll, FRAM_ReadStatusRegister_eq, hst, if_pos hc]
      exact ⟨fun _ => h1.mp hc, fun _ => hp⟩
    · have hp : FRAM_WriteEnable_poll 1 (Bus.mk l (fun _ => s) p)
          = some (Bus.mk (l ++ [rdsrExchange]) (fun _ => s) (p + 1)) := by
        simp only [FRAM_WriteEnable_poll, FRAM_ReadStatusRegister_eq, hst, if_neg hc]
      rw [hp]
      exact ⟨fun h => Option.noConfusion h, fun h => absurd (h1.mpr h) hc⟩

theorem FRAM_WriteEnable_condition_witness :
    0xC0 < 256 ∧ (bitNot32 0xC0 &&& SPI_FRAM_WE ≠ 0 ↔ (0xC0).testBit 1 = false) ∧
      FRAM_WriteEnable_poll 1 (Bus.mk [] (fun _ => 0xC0) 0) = none :=
  ⟨by decide, (FRAM_WriteEnable_condition 0xC0 (by decide)).1,
    ((FRAM_WriteEnable_condition 0xC0 (by decide)).2.2.1 [] 0).mpr (by decide)⟩

/-! ## Range check and address mask -/

/-- C19: for every address below `FRAM_SIZE` the row mask leaves the address as it is,
the three address bytes read big-endian give the address back, and two addresses below
`FRAM_SIZE` with the same three address bytes (under any opcodes) are equal. -/
theorem Build_Address_Stream_injective (a b c d : Nat) (ha : a < FRAM_SIZE)
    (hb : b < FRAM_SIZE) :
    a &&& 0x3FFFF = a ∧
      (∃ b1 b2 b3, Build_Address_Stream a c = [c % 256, b1, b2, b3] ∧
        b1 * 65536 + b2 * 256 + b3 = a) ∧
      ((Build_Address_Stream a c).tail = (Build_Address_Stream b d).tail → a = b) := by
  have ha2 : a < 262144 := ha
  have hb2 : b < 262144 := hb
  have h18 : a &&& 0x3FFFF = a % 262144 := Nat.and_pow_two_sub_one_eq_mod a 18
  refine ⟨?_, ?_, ?_⟩
  · rw [h18]
    exact Nat.mod_eq_of_lt ha2
  · refine ⟨a % 262144 / 65536, a % 262144 / 256 % 256, a % 256,
      Build_Address_Stream_arith a c, ?_⟩
    omega
  · intro h
    rw [Build_Address_Stream_arith, Build_Address_Stream_arith] at h
    simp only [List.tail_cons, List.cons.injEq, and_true] at h
    obtain ⟨h1, h2, h3⟩ := h
    omega

theorem Build_Address_Stream_injective_witness :
    0x2FFFF < FRAM_SIZE ∧ 0x3FFFF < FRAM_SIZE ∧ 0x2FFFF &&& 0x3FFFF = 0x2FFFF ∧
      ((Build_Address_Stream 0x2FFFF 0x03).tail = (Build_Address_Stream 0x3FFFF 0x02).tail
        → 0x2FFFF = 0x3FFFF) :=
  ⟨by decide, by decide,
    (Build_Address_Stream_injective 0x2FFFF 0x3FFFF 0x03 0x02 (by decide) (by decide)).1,
    (Build_Address_Stream_injective 0x2FFFF 0x3FFFF 0x03 0x02 (by decide) (by decide)).2.2⟩

/-- C20: for every address, the `0x3F` mask applied after the row mask changes nothing:
`((a & 0x3FFFF) >> 16) & 0x3F` equals `(a & 0x3FFFF) >> 16` and equals `(a >> 16) & 0x03`,
and this is byte 1 of the stream `Build_Address_Stream` builds. -/
theorem Build_Address_Stream_second_mask (a c : Nat) :
    ((a &&& 0x3FFFF) >>> 16) &&& 0x3F = (a >>> 16) &&& 0x03 ∧
      ((a &&& 0x3FFFF) >>> 16) &&& 0x3F = (a &&& 0x3FFFF) >>> 16 ∧
      (Build_Address_Stream a c)[1]? = some ((a >>> 16) &&& 0x03) := by
  have h18 : a &&& 0x3FFFF = a % 262144 := Nat.and_pow_two_sub_one_eq_mod a 18
  have h6 : ∀ x : Nat, x &&& 0x3F = x % 64 := fun x => Nat.and_pow_two_sub_one_eq_mod x 6
  have h2 : ∀ x : Nat, x &&& 0x03 = x % 4 := fun x => Nat.and_pow_two_sub_one_eq_mod x 2
  refine ⟨?_, ?_, ?_⟩
  · rw [h18, h6, h2, Nat.shiftRight_eq_div_pow, Nat.shiftRight_eq_div_pow]
    omega
  · rw [h18, h6, Nat.shiftRight_eq_div_pow]
    omega
  · rw [Build_Address_Stream_arith, h2, Nat.shiftRight_eq_div_pow]
    simp only [List.getElem?_cons_succ, List.getElem?_cons_zero, Option.some.injEq]
    omega

/-! ## The operations that arm the latch, in terms of `FRAM_WriteEnable` -/

theorem FRAM_WriteStatusRegister_eq (v fuel : Nat) (b : Bus) :
    FRAM_WriteStatusRegister v fuel b
      = (FRAM_WriteEnable fuel b).map (fun r1 =>
          (FRAM_Success,
            appendLog [Exchange.mk [0x01, v] none OpsWakeUp OpsEndTransfer] r1.2)) := by
  simp only [FRAM_WriteStatusRegister]
  cases FRAM_WriteEnable fuel b <;> rfl

theorem FRAM_Unlock_eq (pr : ProtectedRows) (fuel : Nat) (b : Bus) :
    FRAM_Unlock pr fuel b
      = (FRAM_WriteEnable fuel b).map (fun r1 =>
          (FRAM_Success,
            appendLog [Exchange.mk [0x01, ((pr.toNat % 256) <<< 2) % 256] none
              OpsWakeUp OpsEndTransfer] r1.2)) := by
  simp only [FRAM_Unlock, FRAM_WriteStatusRegister]
  cases FRAM_WriteEnable fuel b <;> rfl

theorem FRAM_Write_eq (a : Nat) (p : List Nat) (n fuel : Nat) (b : Bus)
    (ha : a < FRAM_SIZE) :
    FRAM_Write a p n fuel b
      = (FRAM_WriteEnable fuel b).map (fun r1 =>
          (FRAM_Success,
            appendLog [Exchange.mk (Build_Address_Stream a SPI_FRAM_WRITE_INS) none
                OpsWakeUp OpsInitTransfer,
              Exchange.mk (p.take n) none OpsWakeUp OpsEndTransfer] r1.2)) := by
  have hge : ¬ a ≥ FRAM_SIZE := Nat.not_le.mpr ha
  simp only [FRAM_Write, if_neg hge]
  cases FRAM_WriteEnable fuel b with
  | none => rfl
  | some r1 =>
    simp only [Serialize_SPI, Option.map_some', appendLog, List.append_assoc,
      List.singleton_append]

/-! ## The polling loop is unbounded -/

/-- C17: the Write-Enable loop has no cap on its iterations.  For every `n`, against the
device that shows bit 1 clear `n` times and then set, `FRAM_WriteEnable` performs
`n + 1` status reads before it returns and has not returned within `n` iterations;
against a device that never shows bit 1 set it returns for no bound; and it returns for
some bound exactly when some status response has bit 1 set. -/
theorem FRAM_WriteEnable_unbounded (b : Bus) :
    (∀ n, (∀ i, i < n → statusAt (freshBus (deviceReadyAfter n)) i &&& 0x02 = 0) ∧
      FRAM_WriteEnable (n + 1) (freshBus (deviceReadyAfter n))
        = some (FRAM_Success,
            Bus.mk (wrenExchange :: List.replicate (n + 1) rdsrExchange)
              (deviceReadyAfter n) (n + 1)) ∧
      (∀ fuel, fuel ≤ n → FRAM_WriteEnable fuel (freshBus (deviceReadyAfter n)) = none)) ∧
      ((∀ i, statusAt b i &&& 0x02 = 0) → ∀ fuel, FRAM_WriteEnable fuel b = none) ∧
      ((∃ fuel r c, FRAM_WriteEnable fuel b = some (r, c))
        ↔ ∃ i, statusAt b i &&& 0x02 ≠ 0) := by
  have hpend : ∀ (c : Bus) (m : Nat), (∀ i, i < m → statusAt c i &&& 0x02 = 0) →
      ∀ fuel, fuel ≤ m → FRAM_WriteEnable fuel c = none := by
    intro c m hclear fuel hf
    have h := FRAM_WriteEnable_poll_pending fuel
      (Bus.mk (c.log ++ [wrenExchange]) c.miso c.pos)
      (fun i hi => hclear i (Nat.lt_of_lt_of_le hi hf))
    simp only [FRAM_WriteEnable, Serialize_SPI]
    have e : Exchange.mk [SPI_FRAM_WRITE_ENABLE] none OpsWakeUp OpsEndTransfer
        = wrenExchange := rfl
    rw [e, h]
  refine ⟨?_, ?_, ?_, ?_⟩
  · intro n
    have hclear : ∀ i, i < n → statusAt (freshBus (deviceReadyAfter n)) i &&& 0x02 = 0 := by
      intro i hi
      simp only [statusAt, freshBus, deviceReadyAfter, Nat.zero_add, if_pos hi]
      decide
    have hset : statusAt (freshBus (deviceReadyAfter n)) n &&& 0x02 ≠ 0 := by
      simp only [statusAt, freshBus, deviceReadyAfter, Nat.zero_add, if_neg (Nat.lt_irrefl n)]
      decide
    refine ⟨hclear, ?_, hpend _ n hclear⟩
    rw [FRAM_WriteEnable_done (freshBus (deviceReadyAfter n)) n hclear hset (n + 1)
      (Nat.lt_succ_self n)]
    simp only [freshBus, List.nil_append, List.singleton_append, Nat.zero_add]
  · intro hall fuel
    exact hpend b fuel (fun i _ => hall i) fuel (Nat.le_refl fuel)
  · rintro ⟨fuel, r, c, h⟩
    obtain ⟨_, k, _, _, hset, _⟩ := FRAM_WriteEnable_some fuel b r c h
    exact ⟨k, hset⟩
  · intro hex
    have hmin := Nat.find_spec hex
    have hclear : ∀ i, i < Nat.find hex → statusAt b i &&& 0x02 = 0 := by
      intro i hi
      by_contra hne
      exact Nat.find_min hex hi hne
    exact ⟨Nat.find hex + 1, _, _,
      FRAM_WriteEnable_done b (Nat.find hex) hclear hmin (Nat.find hex + 1)
        (Nat.lt_succ_self _)⟩

theorem FRAM_WriteEnable_unbounded_witness :
    (∀ fuel, FRAM_WriteEnable fuel (freshBus (fun _ => 0x40)) = none) ∧
      FRAM_WriteEnable 4 (freshBus (deviceReadyAfter 3))
        = some (FRAM_Success,
            Bus.mk [wrenExchange, rdsrExchange, rdsrExchange, rdsrExchange, rdsrExchange]
              (deviceReadyAfter 3) 4) :=
  ⟨(FRAM_WriteEnable_unbounded (freshBus (fun _ => 0x40))).2.1
      (fun _ => by simp only [statusAt, freshBus]; decide),
    ((FRAM_WriteEnable_unbounded (freshBus (fun _ => 0x40))).1 3).2.1⟩

/-! ## Lemmas on traces -/

theorem callTrace_append (b : Bus) (t : List Exchange) (miso : Nat → Nat) (p : Nat) :
    callTrace b (Bus.mk (b.log ++ t) miso p) = t := by
  simp only [callTrace, List.drop_left]

/-- The Write-Disable loop returns after the first status byte that the mask clears. -/
theorem FRAM_WriteDisable_poll_done (m k : Nat) :
    ∀ (b : Bus), (∀ i, i < k → statusAt b i &&& m ≠ 0) → statusAt b k &&& m = 0 →
      ∀ fuel, k < fuel →
        FRAM_WriteDisable_poll m fuel b
          = some (Bus.mk (b.log ++ List.replicate (k + 1) rdsrExchange) b.miso
              (b.pos + (k + 1))) := by
  induction k with
  | zero =>
    intro b _ hstop fuel hf
    obtain ⟨f, rfl⟩ : ∃ f, fuel = f + 1 := ⟨fuel - 1, by omega⟩
    have hc : ¬ (statusAt b 0 &&& m ≠ 0) := fun h => h hstop
    simp only [FRAM_WriteDisable_poll, FRAM_ReadStatusRegister_eq, if_neg hc]
    rfl
  | succ k ih =>
    intro b hgo hstop fuel hf
    obtain ⟨f, rfl⟩ : ∃ f, fuel = f + 1 := ⟨fuel - 1, by omega⟩
    have hc : statusAt b 0 &&& m ≠ 0 := hgo 0 (Nat.succ_pos k)
    simp only [FRAM_WriteDisable_poll, FRAM_ReadStatusRegister_eq, if_pos hc]
    rw [ih (Bus.mk (b.log ++ [rdsrExchange]) b.miso (b.pos + 1))
      (fun i hi => by rw [statusAt_next]; exact hgo (i + 1) (by omega))
      (by rw [statusAt_next]; exact hstop) f (by omega)]
    simp only [replicate_rdsr_shift]
    rw [Nat.add_assoc b.pos 1 (k + 1), Nat.add_comm 1 (k + 1)]

/-- When the Write-Disable loop returns, it has read `k + 1` status bytes. -/
theorem FRAM_WriteDisable_poll_some (m fuel : Nat) :
    ∀ (b c : Bus), FRAM_WriteDisable_poll m fuel b = some c →
      ∃ k, k < fuel ∧ (∀ i, i < k → statusAt b i &&& m ≠ 0) ∧ statusAt b k &&& m = 0 ∧
        c = Bus.mk (b.log ++ List.replicate (k + 1) rdsrExchange) b.miso
              (b.pos + (k + 1)) := by
  induction fuel with
  | zero => intro b c h; simp [FRAM_WriteDisable_poll] at h
  | succ f ih =>
    intro b c h
    by_cases hc : statusAt b 0 &&& m ≠ 0
    · simp only [FRAM_WriteDisable_poll, FRAM_ReadStatusRegister_eq, if_pos hc] at h
      obtain ⟨k, hk, hgo, hstop, hcq⟩ := ih _ c h
      refine ⟨k + 1, by omega, ?_, ?_, ?_⟩
      · intro i hi
        cases i with
        | zero => exact hc
        | succ j =>
          have := hgo j (by omega)
          rwa [statusAt_next] at this
      · rwa [statusAt_next] at hstop
      · rw [hcq]
        simp only [replicate_rdsr_shift]
        rw [Nat.add_assoc b.pos 1 (k + 1), Nat.add_comm 1 (k + 1)]
    · simp only [FRAM_WriteDisable_poll, FRAM_ReadStatusRegister_eq, if_neg hc] at h
      refine ⟨0, by omega, fun i hi => absurd hi (Nat.not_lt_zero i),
        Classical.not_not.mp hc, ?_⟩
      exact (Option.some.inj h).symm

/-- An operation that arms the latch and then sends `suffix`: its outcome when the device
shows bit 1 clear `k` times and then set. -/
theorem armed_done (suffix : List Exchange) (b : Bus) (k : Nat)
    (hclear : ∀ i, i < k → statusAt b i &&& 0x02 = 0) (hset : statusAt b k &&& 0x02 ≠ 0)
    (fuel : Nat) (hf : k < fuel) :
    (FRAM_WriteEnable fuel b).map (fun r1 => (FRAM_Success, appendLog suffix r1.2))
      = some (FRAM_Success,
          Bus.mk (b.log ++ (wrenExchange :: List.replicate (k + 1) rdsrExchange ++ suffix))
            b.miso (b.pos + (k + 1))) := by
  rw [FRAM_WriteEnable_done b k hclear hset fuel hf]
  simp only [Option.map_some', appendLog, List.append_assoc, List.singleton_append,
    List.cons_append, List.nil_append]

/-- An operation that arms the latch and then sends `suffix`: what it has done when it
returns. -/
theorem armed_some (suffix : List Exchange) (fuel : Nat) (b : Bus) (r : ReturnType)
    (c : Bus)
    (h : (FRAM_WriteEnable fuel b).map (fun r1 => (FRAM_Success, appendLog suffix r1.2))
      = some (r, c)) :
    r = FRAM_Success ∧
      ∃ k, k < fuel ∧ (∀ i, i < k → statusAt b i &&& 0x02 = 0) ∧
        statusAt b k &&& 0x02 ≠ 0 ∧
        c = Bus.mk (b.log ++ (wrenExchange :: List.replicate (k + 1) rdsrExchange ++ suffix))
              b.miso (b.pos + (k + 1)) := by
  cases hw : FRAM_WriteEnable fuel b with
  | none => rw [hw] at h; exact Option.noConfusion h
  | some r1 =>
    obtain ⟨_, k, hk, hclear, hset, _⟩ := FRAM_WriteEnable_some fuel b r1.1 r1.2 hw
    rw [armed_done suffix b k hclear hset fuel hk] at h
    have hrc := Option.some.inj h
    exact ⟨(congrArg Prod.fst hrc).symm, k, hk, hclear, hset,
      (congrArg Prod.snd hrc).symm⟩

theorem transactionOpcodes_rdsr (m : Nat) (rest : List Exchange) :
    transactionOpcodes false (List.replicate m rdsrExchange ++ rest)
      = List.replicate m 0x05 ++ transactionOpcodes false rest := by
  induction m with
  | zero => rfl
  | succ j ih =>
    rw [List.replicate_succ, List.cons_append]
    simp only [transactionOpcodes]
    rw [show decide (rdsrExchange.optAfter = OpsInitTransfer) = false from rfl, ih]
    rfl

theorem armed_trace_mem (suffix : List Exchange) (k : Nat) (e : Exchange)
    (he : e ∈ wrenExchange :: List.replicate (k + 1) rdsrExchange ++ suffix) :
    e = wrenExchange ∨ e = rdsrExchange ∨ e ∈ suffix := by
  rcases List.mem_cons.mp he with h | h
  · exact Or.inl h
  · rcases List.mem_append.mp h with h2 | h2
    · exact Or.inr (Or.inl (List.eq_of_mem_replicate h2))
    · exact Or.inr (Or.inr h2)

theorem transactionOpcodes_cons (held : Bool) (e : Exchange) (es : List Exchange) :
    transactionOpcodes held (e :: es)
      = (if held then [] else e.char_stream_send.head?.toList)
          ++ transactionOpcodes (decide (e.optAfter = OpsInitTransfer)) es := by
  rfl

theorem armed_trace_opcodes (held : Bool) (suffix : List Exchange) (k : Nat) :
    transactionOpcodes held (wrenExchange :: List.replicate (k + 1) rdsrExchange ++ suffix)
      = (if held then [] else [0x06]) ++ (List.replicate (k + 1) 0x05
          ++ transactionOpcodes false suffix) := by
  rw [List.cons_append, transactionOpcodes_cons,
    show decide (wrenExchange.optAfter = OpsInitTransfer) = false from rfl,
    transactionOpcodes_rdsr]
  rfl

/-! ## Write flows and the Write-Disable opcode -/

/-- C13, as stated, fails on the payload phase of `FRAM_Write`: writing the one byte
`0x04` at address 0 hands the transport an exchange whose outbound stream is `[0x04]`,
the same exchange `FRAM_WriteDisable` issues. -/
theorem FRAM_Write_payload_begins_with_0x04 :
    FRAM_Write 0 [0x04] 1 1 (freshBus (deviceReadyAfter 0))
        = some (FRAM_Success,
            Bus.mk [wrenExchange, rdsrExchange,
                Exchange.mk [0x02, 0x00, 0x00, 0x00] none OpsWakeUp OpsInitTransfer,
                Exchange.mk [0x04] none OpsWakeUp OpsEndTransfer]
              (deviceReadyAfter 0) 1) ∧
      Exchange.mk [0x04] none OpsWakeUp OpsEndTransfer = wrdiExchange ∧
      ¬ (∀ c, FRAM_Write 0 [0x04] 1 1 (freshBus (deviceReadyAfter 0))
            = some (FRAM_Success, c) →
          ∀ e, e ∈ callTrace (freshBus (deviceReadyAfter 0)) c →
            e.char_stream_send.head? ≠ some 0x04) := by
  refine ⟨rfl, rfl, ?_⟩
  intro h
  exact h (Bus.mk [wrenExchange, rdsrExchange,
        Exchange.mk [0x02, 0x00, 0x00, 0x00] none OpsWakeUp OpsInitTransfer,
        Exchange.mk [0x04] none OpsWakeUp OpsEndTransfer]
      (deviceReadyAfter 0) 1) rfl (Exchange.mk [0x04] none OpsWakeUp OpsEndTransfer)
    (by simp [callTrace, freshBus]) rfl

/-- C13, amended: whenever `FRAM_WriteStatusRegister` or `FRAM_Unlock` returns, no
exchange it appended to the log has an outbound stream beginning with `0x04`; whenever
`FRAM_Write` returns, no bus transaction it opened begins with `0x04`, and the only
exchange it appended whose outbound stream can begin with `0x04` is the payload stream,
which continues the transaction that the address phase left open. -/
theorem FRAM_write_flows_no_write_disable (a : Nat) (p : List Nat) (n v : Nat)
    (pr : ProtectedRows) (fuel : Nat) (b : Bus) (r : ReturnType) (c : Bus) :
    (FRAM_WriteStatusRegister v fuel b = some (r, c) →
        ∃ t, c.log = b.log ++ t ∧ ∀ e, e ∈ t → e.char_stream_send.head? ≠ some 0x04) ∧
      (FRAM_Unlock pr fuel b = some (r, c) →
        ∃ t, c.log = b.log ++ t ∧ ∀ e, e ∈ t → e.char_stream_send.head? ≠ some 0x04) ∧
      (FRAM_Write a p n fuel b = some (r, c) →
        ∃ t, c.log = b.log ++ t ∧ (∀ held, 0x04 ∉ transactionOpcodes held t) ∧
          ∀ e, e ∈ t → e.char_stream_send.head? = some 0x04 →
            e = Exchange.mk (p.take n) none OpsWakeUp OpsEndTransfer) := by
  have hone : ∀ (x : Nat) (k : Nat) (e : Exchange),
      e ∈ wrenExchange :: List.replicate (k + 1) rdsrExchange
          ++ [Exchange.mk [0x01, x] none OpsWakeUp OpsEndTransfer] →
        e.char_stream_send.head? ≠ some 0x04 := by
    intro x k e he
    rcases armed_trace_mem _ k e he with h | h | h
    · rw [h]; decide
    · rw [h]; decide
    · rw [List.mem_singleton.mp h]
      simp
  refine ⟨?_, ?_, ?_⟩
  · intro h
    rw [FRAM_WriteStatusRegister_eq] at h
    obtain ⟨_, k, _, _, _, hc⟩ := armed_some _ fuel b r c h
    exact ⟨_, by rw [hc], hone v k⟩
  · intro h
    rw [FRAM_Unlock_eq] at h
    obtain ⟨_, k, _, _, _, hc⟩ := armed_some _ fuel b r c h
    exact ⟨_, by rw [hc], hone _ k⟩
  · intro h
    rcases Nat.lt_or_ge a FRAM_SIZE with ha | ha
    · rw [FRAM_Write_eq a p n fuel b ha] at h
      obtain ⟨_, k, _, _, _, hc⟩ := armed_some _ fuel b r c h
      refine ⟨_, by rw [hc], ?_, ?_⟩
      · intro held
        rw [armed_trace_opcodes]
        have hs : transactionOpcodes false
            [Exchange.mk (Build_Address_Stream a SPI_FRAM_WRITE_INS) none
                OpsWakeUp OpsInitTransfer,
              Exchange.mk (p.take n) none OpsWakeUp OpsEndTransfer] = [0x02] := rfl
        rw [hs]
        intro hmem
        rcases List.mem_append.mp hmem with h1 | h1
        · cases held
          · simp at h1
          · simp at h1
        · rcases List.mem_append.mp h1 with h2 | h2
          · have := List.eq_of_mem_replicate h2
            omega
          · simp at h2
      · intro e he hhead
        rcases armed_trace_mem _ k e he with h1 | h1 | h1
        · rw [h1] at hhead; exact absurd hhead (by decide)
        · rw [h1] at hhead; exact absurd hhead (by decide)
        · rcases List.mem_cons.mp h1 with h2 | h2
          · rw [h2] at hhead
            exact absurd hhead (by simp [Build_Address_Stream, SPI_FRAM_WRITE_INS])
          · exact List.mem_singleton.mp h2
    · simp only [FRAM_Write, ge_iff_le, if_pos ha] at h
      have hc : c = b := (congrArg Prod.snd (Option.some.inj h)).symm
      refine ⟨[], by rw [hc, List.append_nil], ?_, ?_⟩
      · intro held hmem
        cases held <;> simp [transactionOpcodes] at hmem
      · intro e he
        exact absurd he (List.not_mem_nil e)

theorem FRAM_write_flows_no_write_disable_witness :
    ∃ t, [wrenExchange, rdsrExchange,
          Exchange.mk [0x02, 0x00, 0x00, 0x00] none OpsWakeUp OpsInitTransfer,
          Exchange.mk [0x04] none OpsWakeUp OpsEndTransfer] = [] ++ t ∧
      (∀ held, 0x04 ∉ transactionOpcodes held t) ∧
      ∀ e, e ∈ t → e.char_stream_send.head? = some 0x04 →
        e = Exchange.mk [0x04] none OpsWakeUp OpsEndTransfer :=
  (FRAM_write_flows_no_write_disable 0 [0x04] 1 0
    ProtectedRows.SPI_FRAM_PROTECTED_ALL_UNLOCKED 1 (freshBus (deviceReadyAfter 0))
    FRAM_Success
    (Bus.mk [wrenExchange, rdsrExchange,
        Exchange.mk [0x02, 0x00, 0x00, 0x00] none OpsWakeUp OpsInitTransfer,
        Exchange.mk [0x04] none OpsWakeUp OpsEndTransfer]
      (deviceReadyAfter 0) 1)).2.2 rfl

/-! ## Calls do not depend on earlier calls -/

/-- Two runs of an operation that append the same exchanges, consume the same number of
device bytes and agree on the result have the same outcome. -/
theorem sameOutcome_of_forms {α : Type} (op : Bus → Option (α × Bus)) (b1 b2 : Bus)
    (r1 r2 : α) (t : List Exchange) (m : Nat)
    (h1 : op b1 = some (r1, Bus.mk (b1.log ++ t) b1.miso (b1.pos + m)))
    (h2 : op b2 = some (r2, Bus.mk (b2.log ++ t) b2.miso (b2.pos + m)))
    (hr : sameResponses m b1 b2 → r1 = r2) : SameOutcome op b1 b2 := by
  intro r c1 h hs
  rw [h1] at h
  have hrc := Option.some.inj h
  have hr1 : r = r1 := (congrArg Prod.fst hrc).symm
  have hc1 : c1 = Bus.mk (b1.log ++ t) b1.miso (b1.pos + m) := (congrArg Prod.snd hrc).symm
  have hm : c1.pos - b1.pos = m := by
    rw [hc1]
    show b1.pos + m - b1.pos = m
    omega
  rw [hm] at hs
  refine ⟨Bus.mk (b2.log ++ t) b2.miso (b2.pos + m), ?_, ?_, ?_⟩
  · rw [h2, hr1, hr hs]
  · rw [hc1, callTrace_append, callTrace_append]
  · rw [hm]
    show b2.pos + m - b2.pos = m
    omega

theorem bus_unchanged (b : Bus) : Bus.mk (b.log ++ []) b.miso (b.pos + 0) = b := by
  cases b
  simp only [List.append_nil, Nat.add_zero]

theorem responses_congr (n : Nat) (b1 b2 : Bus) (hs : sameResponses n b1 b2) :
    (List.range n).map (fun i => b1.miso (b1.pos + i) % 256)
      = (List.range n).map (fun i => b2.miso (b2.pos + i) % 256) := by
  apply List.map_congr_left
  intro i hi
  exact hs i (List.mem_range.mp hi)

/-- The operations that arm the latch and then send `suffix` have the same outcome from
any two bus states whose devices answer alike. -/
theorem armed_sameOutcome (suffix : List Exchange) (fuel : Nat) (b1 b2 : Bus) :
    SameOutcome (fun b =>
      (FRAM_WriteEnable fuel b).map (fun r1 => (FRAM_Success, appendLog suffix r1.2)))
      b1 b2 := by
  intro r c1 h hs
  obtain ⟨hr, k, hk, hclear, hset, hc⟩ := armed_some suffix fuel b1 r c1 h
  have hm : c1.pos - b1.pos = k + 1 := by
    rw [hc]
    show b1.pos + (k + 1) - b1.pos = k + 1
    omega
  have hs2 : sameResponses (k + 1) b1 b2 := by rw [← hm]; exact hs
  have hclear2 : ∀ i, i < k → statusAt b2 i &&& 0x02 = 0 := by
    intro i hi
    rw [← hs2 i (by omega)]
    exact hclear i hi
  have hset2 : statusAt b2 k &&& 0x02 ≠ 0 := by
    rw [← hs2 k (by omega)]
    exact hset
  exact sameOutcome_of_forms
    (fun b => (FRAM_WriteEnable fuel b).map (fun r1 => (FRAM_Success, appendLog suffix r1.2)))
    b1 b2 FRAM_Success FRAM_Success _ (k + 1)
    (armed_done suffix b1 k hclear hset fuel hk)
    (armed_done suffix b2 k hclear2 hset2 fuel hk) (fun _ => rfl) r c1 h hs

/-- Function `FRAM_WriteDisable` in full, for a device whose status the mask keeps
non-zero `k` times and then clears. -/
theorem FRAM_WriteDisable_done (m : Nat) (b : Bus) (k : Nat)
    (hgo : ∀ i, i < k → statusAt b i &&& m ≠ 0) (hstop : statusAt b k &&& m = 0)
    (fuel : Nat) (hf : k < fuel) :
    FRAM_WriteDisable m fuel b
      = some (FRAM_Success,
          Bus.mk (b.log ++ (wrdiExchange :: List.replicate (k + 1) rdsrExchange)) b.miso
            (b.pos + (k + 1))) := by
  have h := FRAM_WriteDisable_poll_done m k
    (Bus.mk (b.log ++ [wrdiExchange]) b.miso b.pos) hgo hstop fuel hf
  simp only [FRAM_WriteDisable, Serialize_SPI]
  have e : Exchange.mk [SPI_FRAM_WRITE_DISABLE] none OpsWakeUp OpsEndTransfer
      = wrdiExchange := rfl
  rw [e, h]
  simp only [List.append_assoc, List.singleton_append]

theorem FRAM_WriteDisable_some (m fuel : Nat) (b : Bus) (r : ReturnType) (c : Bus)
    (h : FRAM_WriteDisable m fuel b = some (r, c)) :
    ∃ k, k < fuel ∧ (∀ i, i < k → statusAt b i &&& m ≠ 0) ∧ statusAt b k &&& m = 0 := by
  simp only [FRAM_WriteDisable, Serialize_SPI] at h
  cases hp : FRAM_WriteDisable_poll m fuel
      (Bus.mk (b.log ++ [Exchange.mk [SPI_FRAM_WRITE_DISABLE] none OpsWakeUp OpsEndTransfer])
        b.miso b.pos) with
  | none => rw [hp] at h; simp at h
  | some c1 =>
    obtain ⟨k, hk, hgo, hstop, _⟩ := FRAM_WriteDisable_poll_some m fuel _ c1 hp
    exact ⟨k, hk, hgo, hstop⟩

theorem FRAM_WriteDisable_sameOutcome (m fuel : Nat) (b1 b2 : Bus) :
    SameOutcome (FRAM_WriteDisable m fuel) b1 b2 := by
  intro r c1 h hs
  obtain ⟨k, hk, hgo, hstop⟩ := FRAM_WriteDisable_some m fuel b1 r c1 h
  have hd := FRAM_WriteDisable_done m b1 k hgo hstop fuel hk
  have hc : c1 = Bus.mk (b1.log ++ (wrdiExchange :: List.replicate (k + 1) rdsrExchange))
      b1.miso (b1.pos + (k + 1)) := by
    rw [hd] at h
    exact (congrArg Prod.snd (Option.some.inj h)).symm
  have hm : c1.pos - b1.pos = k + 1 := by
    rw [hc]
    show b1.pos + (k + 1) - b1.pos = k + 1
    omega
  have hs2 : sameResponses (k + 1) b1 b2 := by rw [← hm]; exact hs
  have hgo2 : ∀ i, i < k → statusAt b2 i &&& m ≠ 0 := by
    intro i hi
    rw [← hs2 i (by omega)]
    exact hgo i hi
  have hstop2 : statusAt b2 k &&& m = 0 := by
    rw [← hs2 k (by omega)]
    exact hstop
  exact sameOutcome_of_forms (FRAM_WriteDisable m fuel) b1 b2 FRAM_Success FRAM_Success _
    (k + 1) hd (FRAM_WriteDisable_done m b2 k hgo2 hstop2 fuel hk) (fun _ => rfl) r c1 h hs

theorem FRAM_WriteEnable_sameOutcome (fuel : Nat) (b1 b2 : Bus) :
    SameOutcome (FRAM_WriteEnable fuel) b1 b2 := by
  intro r c1 h hs
  obtain ⟨hr, k, hk, hclear, hset, hc⟩ := FRAM_WriteEnable_some fuel b1 r c1 h
  have hform : ∀ (b : Bus), (∀ i, i < k → statusAt b i &&& 0x02 = 0) →
      statusAt b k &&& 0x02 ≠ 0 →
      FRAM_WriteEnable fuel b
        = some (FRAM_Success,
            Bus.mk (b.log ++ ([wrenExchange] ++ List.replicate (k + 1) rdsrExchange)) b.miso
              (b.pos + (k + 1))) := by
    intro b h1 h2
    rw [FRAM_WriteEnable_done b k h1 h2 fuel hk, List.append_assoc]
  have hm : c1.pos - b1.pos = k + 1 := by
    rw [hc]
    show b1.pos + (k + 1) - b1.pos = k + 1
    omega
  have hs2 : sameResponses (k + 1) b1 b2 := by rw [← hm]; exact hs
  have hclear2 : ∀ i, i < k → statusAt b2 i &&& 0x02 = 0 := by
    intro i hi
    rw [← hs2 i (by omega)]
    exact hclear i hi
  have hset2 : statusAt b2 k &&& 0x02 ≠ 0 := by
    rw [← hs2 k (by omega)]
    exact hset
  exact sameOutcome_of_forms (FRAM_WriteEnable fuel) b1 b2 FRAM_Success FRAM_Success _
    (k + 1) (hform b1 hclear hset) (hform b2 hclear2 hset2) (fun _ => rfl) r c1 h hs

/-- With the byte at `&chars` and the mask `SPI_NAND_WE` held fixed, the outcome of
every operation from a bus state depends on its arguments and on the responses it
receives, not on the log or the cursor. -/
theorem FRAM_calls_keep_no_state (b1 b2 : Bus) :
    SameOutcome (fun b => some (((FRAM_ReadStatusRegister b).1,
        (FRAM_ReadStatusRegister b).2.1), (FRAM_ReadStatusRegister b).2.2)) b1 b2 ∧
      (∀ v fuel, SameOutcome (FRAM_WriteStatusRegister v fuel) b1 b2) ∧
      (∀ fuel, SameOutcome (FRAM_WriteEnable fuel) b1 b2) ∧
      (∀ m fuel, SameOutcome (FRAM_WriteDisable m fuel) b1 b2) ∧
      (∀ a pArray n, SameOutcome (fun b => some (((FRAM_Read a pArray n b).1,
        (FRAM_Read a pArray n b).2.1), (FRAM_Read a pArray n b).2.2)) b1 b2) ∧
      (∀ a p n fuel, SameOutcome (FRAM_Write a p n fuel) b1 b2) ∧
      (∀ chars devArray, SameOutcome (fun b =>
        some (((FRAM_ReadDeviceIdentification chars devArray b).1,
          (FRAM_ReadDeviceIdentification chars devArray b).2.1),
          (FRAM_ReadDeviceIdentification chars devArray b).2.2)) b1 b2) ∧
      (∀ pr fuel, SameOutcome (FRAM_Unlock pr fuel) b1 b2) ∧
      SameOutcome (fun b => some (FRAM_Sleep b)) b1 b2 := by
  refine ⟨?_, ?_, fun fuel => FRAM_WriteEnable_sameOutcome fuel b1 b2,
    fun m fuel => FRAM_WriteDisable_sameOutcome m fuel b1 b2, ?_, ?_, ?_, ?_, ?_⟩
  · exact sameOutcome_of_forms _ b1 b2 (FRAM_Success, statusAt b1 0)
      (FRAM_Success, statusAt b2 0) [rdsrExchange] 1 rfl rfl
      (fun hs => by rw [hs 0 (Nat.lt_succ_self 0)])
  · intro v fuel
    have e : FRAM_WriteStatusRegister v fuel = fun b =>
        (FRAM_WriteEnable fuel b).map (fun r1 =>
          (FRAM_Success,
            appendLog [Exchange.mk [0x01, v] none OpsWakeUp OpsEndTransfer] r1.2)) :=
      funext (FRAM_WriteStatusRegister_eq v fuel)
    rw [e]
    exact armed_sameOutcome _ fuel b1 b2
  · intro a pArray n
    rcases Nat.lt_or_ge a FRAM_SIZE with ha | ha
    · have hge : ¬ a ≥ FRAM_SIZE := Nat.not_le.mpr ha
      have hform : ∀ b : Bus,
          some (((FRAM_Read a pArray n b).1, (FRAM_Read a pArray n b).2.1),
              (FRAM_Read a pArray n b).2.2)
            = some ((FRAM_Success,
                (List.range n).map (fun i => b.miso (b.pos + i) % 256) ++ pArray.drop n),
                Bus.mk (b.log ++ [Exchange.mk (Build_Address_Stream a SPI_FRAM_READ_INS)
                  (some n) OpsWakeUp OpsEndTransfer]) b.miso (b.pos + n)) := by
        intro b
        simp only [FRAM_Read, if_neg hge, Serialize_SPI]
      exact sameOutcome_of_forms _ b1 b2 _ _ _ n (hform b1) (hform b2)
        (fun hs => by rw [responses_congr n b1 b2 hs])
    · have hform : ∀ b : Bus,
          some (((FRAM_Read a pArray n b).1, (FRAM_Read a pArray n b).2.1),
              (FRAM_Read a pArray n b).2.2)
            = some ((FRAM_AddressInvalid, pArray),
                Bus.mk (b.log ++ []) b.miso (b.pos + 0)) := by
        intro b
        simp only [FRAM_Read, ge_iff_le, if_pos ha, bus_unchanged]
      exact sameOutcome_of_forms _ b1 b2 _ _ [] 0 (hform b1) (hform b2) (fun _ => rfl)
  · intro a p n fuel
    rcases Nat.lt_or_ge a FRAM_SIZE with ha | ha
    · have e : FRAM_Write a p n fuel = fun b =>
          (FRAM_WriteEnable fuel b).map (fun r1 =>
            (FRAM_Success,
              appendLog [Exchange.mk (Build_Address_Stream a SPI_FRAM_WRITE_INS) none
                  OpsWakeUp OpsInitTransfer,
                Exchange.mk (p.take n) none OpsWakeUp OpsEndTransfer] r1.2)) :=
        funext (fun b => FRAM_Write_eq a p n fuel b ha)
      rw [e]
      exact armed_sameOutcome _ fuel b1 b2
    · have hform : ∀ b : Bus, FRAM_Write a p n fuel b
          = some (FRAM_AddressInvalid, Bus.mk (b.log ++ []) b.miso (b.pos + 0)) := by
        intro b
        simp only [FRAM_Write, ge_iff_le, if_pos ha, bus_unchanged]
      exact sameOutcome_of_forms _ b1 b2 _ _ [] 0 (hform b1) (hform b2) (fun _ => rfl)
  · intro chars devArray
    exact sameOutcome_of_forms _ b1 b2
      (FRAM_Success, (List.range 9).map (fun i => b1.miso (b1.pos + i) % 256)
        ++ devArray.drop 9)
      (FRAM_Success, (List.range 9).map (fun i => b2.miso (b2.pos + i) % 256)
        ++ devArray.drop 9)
      [Exchange.mk [chars] (some 9) OpsWakeUp OpsEndTransfer] 9 rfl rfl
      (fun hs => by rw [responses_congr 9 b1 b2 hs])
  · intro pr fuel
    have e : FRAM_Unlock pr fuel = fun b =>
        (FRAM_WriteEnable fuel b).map (fun r1 =>
          (FRAM_Success,
            appendLog [Exchange.mk [0x01, ((pr.toNat % 256) <<< 2) % 256] none
              OpsWakeUp OpsEndTransfer] r1.2)) :=
      funext (FRAM_Unlock_eq pr fuel)
    rw [e]
    exact armed_sameOutcome _ fuel b1 b2
  · exact sameOutcome_of_forms _ b1 b2 FRAM_Success FRAM_Success
      [Exchange.mk [SPI_FRAM_SLEEP] none OpsWakeUp OpsEndTransfer] 0 rfl rfl (fun _ => rfl)

/-! ## Protection levels -/

/-- Function `FRAM_WriteEnable` does not return, whatever the bound on its loop, while
the device never shows bit 1 set. -/
theorem FRAM_WriteEnable_never (b : Bus) (hall : ∀ i, statusAt b i &&& 0x02 = 0)
    (fuel : Nat) : FRAM_WriteEnable fuel b = none := by
  have h := FRAM_WriteEnable_poll_pending fuel
    (Bus.mk (b.log ++ [wrenExchange]) b.miso b.pos) (fun i _ => hall i)
  simp only [FRAM_WriteEnable, Serialize_SPI]
  have e : Exchange.mk [SPI_FRAM_WRITE_ENABLE] none OpsWakeUp OpsEndTransfer
      = wrenExchange := rfl
  rw [e, h]

/-- C11, as stated, fails on a device that never shows the write-enable bit: with every
status byte `0x40`, `FRAM_Write` at the valid address 0 does not return for any bound on
the polling loop, so it does not return `FRAM_Success`. -/
theorem FRAM_Write_no_return :
    0 < FRAM_SIZE ∧ (∀ i, statusAt (freshBus (fun _ => 0x40)) i &&& 0x02 = 0) ∧
      ∀ fuel, FRAM_Write 0 [0xAA, 0xBB] 2 fuel (freshBus (fun _ => 0x40)) = none := by
  have hall : ∀ i, statusAt (freshBus (fun _ => 0x40)) i &&& 0x02 = 0 := by
    intro i
    simp only [statusAt, freshBus]
    decide
  refine ⟨by decide, hall, ?_⟩
  intro fuel
  rw [FRAM_Write_eq 0 [0xAA, 0xBB] 2 fuel _ (by decide), FRAM_WriteEnable_never _ hall fuel]
  rfl

/-- C11, amended: address-range validation is the only failure `FRAM_Read` and
`FRAM_Write` detect.  For every address, buffer and length (the length is not checked:
zero and lengths running past the capacity included), `FRAM_Read` returns
`FRAM_Success` when the address is below the capacity and `FRAM_AddressInvalid` exactly
when it is not, and no other tag.  `FRAM_Write` at an address below the capacity returns
`FRAM_Success` once the device shows the write-enable bit and does not return while the
device never shows it; whenever it returns, its tag is `FRAM_AddressInvalid` exactly when
the address is at or above the capacity and `FRAM_Success` otherwise. -/
theorem FRAM_Read_Write_result_tags (a : Nat) (pArray : List Nat) (n : Nat) (b : Bus) :
    (a < FRAM_SIZE → (FRAM_Read a pArray n b).1 = FRAM_Success) ∧
      ((FRAM_Read a pArray n b).1 = FRAM_AddressInvalid ↔ FRAM_SIZE ≤ a) ∧
      ((FRAM_Read a pArray n b).1 = FRAM_Success
        ∨ (FRAM_Read a pArray n b).1 = FRAM_AddressInvalid) ∧
      (a < FRAM_SIZE → ∀ k, (∀ i, i < k → statusAt b i &&& 0x02 = 0) →
        statusAt b k &&& 0x02 ≠ 0 → ∀ fuel, k < fuel →
          ∃ c, FRAM_Write a pArray n fuel b = some (FRAM_Success, c)) ∧
      (∀ fuel r c, FRAM_Write a pArray n fuel b = some (r, c) →
        (r = FRAM_AddressInvalid ↔ FRAM_SIZE ≤ a) ∧ (r = FRAM_Success ↔ a < FRAM_SIZE) ∧
          (r = FRAM_Success ∨ r = FRAM_AddressInvalid)) ∧
      (a < FRAM_SIZE → (∀ i, statusAt b i &&& 0x02 = 0) →
        ∀ fuel, FRAM_Write a pArray n fuel b = none) := by
  have hread_lt : a < FRAM_SIZE → (FRAM_Read a pArray n b).1 = FRAM_Success := by
    intro ha
    have hge : ¬ a ≥ FRAM_SIZE := Nat.not_le.mpr ha
    simp only [FRAM_Read, if_neg hge]
  have hread_ge : FRAM_SIZE ≤ a → (FRAM_Read a pArray n b).1 = FRAM_AddressInvalid := by
    intro ha
    simp only [FRAM_Read, ge_iff_le, if_pos ha]
  refine ⟨hread_lt, ⟨?_, hread_ge⟩, ?_, ?_, ?_, ?_⟩
  · intro h
    by_contra hlt
    rw [hread_lt (Nat.not_le.mp hlt)] at h
    exact ReturnType.noConfusion h
  · rcases Nat.lt_or_ge a FRAM_SIZE with ha | ha
    · exact Or.inl (hread_lt ha)
    · exact Or.inr (hread_ge ha)
  · intro ha k hclear hset fuel hf
    rw [FRAM_Write_eq a pArray n fuel b ha, FRAM_WriteEnable_done b k hclear hset fuel hf]
    exact ⟨_, rfl⟩
  · intro fuel r c h
    rcases Nat.lt_or_ge a FRAM_SIZE with ha | ha
    · have hr : r = FRAM_Success := by
        rw [FRAM_Write_eq a pArray n fuel b ha] at h
        cases hw : FRAM_WriteEnable fuel b with
        | none => rw [hw] at h; exact Option.noConfusion h
        | some r1 =>
          rw [hw] at h
          exact (congrArg Prod.fst (Option.some.inj h)).symm
      subst hr
      refine ⟨⟨fun e => ReturnType.noConfusion e, fun hle => absurd ha (Nat.not_lt.mpr hle)⟩,
        ⟨fun _ => ha, fun _ => rfl⟩, Or.inl rfl⟩
    · have hr : r = FRAM_AddressInvalid := by
        simp only [FRAM_Write, ge_iff_le, if_pos ha] at h
        exact (congrArg Prod.fst (Option.some.inj h)).symm
      subst hr
      refine ⟨⟨fun _ => ha, fun _ => rfl⟩,
        ⟨fun e => ReturnType.noConfusion e, fun hlt => absurd hlt (Nat.not_lt.mpr ha)⟩,
        Or.inr rfl⟩
  · intro ha hall fuel
    rw [FRAM_Write_eq a pArray n fuel b ha, FRAM_WriteEnable_never b hall fuel]
    rfl

theorem FRAM_Read_Write_result_tags_witness :
    (FRAM_Read 0x3FFFF [] 16 (freshBus (deviceReadyAfter 1))).1 = FRAM_Success ∧
      (∃ c, FRAM_Write 0x3FFFF [1, 2, 3] 0 2 (freshBus (deviceReadyAfter 1))
        = some (FRAM_Success, c)) :=
  ⟨(FRAM_Read_Write_result_tags 0x3FFFF [] 16 (freshBus (deviceReadyAfter 1))).1 (by decide),
    (FRAM_Read_Write_result_tags 0x3FFFF [1, 2, 3] 0 (freshBus (deviceReadyAfter 1))).2.2.2.1
      (by decide) 1 (fun i hi => by interval_cases i; decide) (by decide) 2 (by decide)⟩

/-! ## Round trip through the status register -/

theorem Device.step_wren (d : Device) (h : d.held = false) :
    d.step wrenExchange = Device.mk (d.sr ||| 0x02) false := by
  simp [Device.step, h, wrenExchange]

theorem Device.step_rdsr (d : Device) (h : d.held = false) : d.step rdsrExchange = d := by
  cases d
  simp only at h
  subst h
  simp [Device.step, rdsrExchange]

theorem Device.step_wrsr (d : Device) (h : d.held = false) (hw : d.sr &&& 0x02 ≠ 0)
    (v : Nat) :
    d.step (Exchange.mk [0x01, v] none OpsWakeUp OpsEndTransfer)
      = Device.mk ((v &&& 0x8C) ||| 0x40) false := by
  simp [Device.step, h, hw]

theorem Device.statusAnswers_cons (d : Device) (e : Exchange) (es : List Exchange) :
    d.statusAnswers (e :: es)
      = (if d.held = false ∧ e.char_stream_send.head? = some 0x05 then
          List.replicate (e.char_stream_recv.getD 0) d.sr
        else [])
        ++ Device.statusAnswers (d.step e) es := by
  rfl

theorem Device.statusAnswers_rdsr (d : Device) (h : d.held = false) (m : Nat)
    (rest : List Exchange) :
    d.statusAnswers (List.replicate m rdsrExchange ++ rest)
      = List.replicate m d.sr ++ d.statusAnswers rest := by
  induction m with
  | zero => rfl
  | succ j ih =>
    rw [List.replicate_succ, List.cons_append, Device.statusAnswers_cons,
      Device.step_rdsr d h, ih]
    simp [h, rdsrExchange, List.replicate_succ]

theorem latch_set (x : Nat) : (x ||| 0x02) &&& 0x02 ≠ 0 := by
  intro h
  have h1 : ((x ||| 0x02) &&& 0x02).testBit 1 = true := by
    rw [Nat.testBit_and, Nat.testBit_or]
    have : (2 : Nat).testBit 1 = true := by decide
    simp [this]
  rw [h, Nat.zero_testBit] at h1
  exact Bool.noConfusion h1

theorem persisted_bits (v : Nat) (hv : v < 256) :
    ((v &&& 0x8C) ||| 0x40) &&& 0x0C = v &&& 0x0C ∧
      ((v &&& 0x8C) ||| 0x40) &&& 0x80 = v &&& 0x80 ∧ (v &&& 0x8C) ||| 0x40 < 256 := by
  interval_cases v <;> decide

/-- The answers of the device to the status reads of a status write followed by a
status read. -/
theorem Device.statusAnswers_round_trip (d : Device) (h : d.held = false) (v m : Nat) :
    d.statusAnswers (wrenExchange :: List.replicate m rdsrExchange
        ++ [Exchange.mk [0x01, v] none OpsWakeUp OpsEndTransfer, rdsrExchange])
      = List.replicate m (d.sr ||| 0x02) ++ [(v &&& 0x8C) ||| 0x40] := by
  rw [List.cons_append, Device.statusAnswers_cons, Device.step_wren d h,
    Device.statusAnswers_rdsr _ rfl, Device.statusAnswers_cons,
    Device.step_wrsr _ rfl (latch_set d.sr), Device.statusAnswers_cons]
  simp [h, wrenExchange, rdsrExchange, Device.statusAnswers]

/-- C15: round trip on the status register, against the device modelled from the spec.
For every status byte `v` and every state `d` of the device with the bus released:
in every run of `FRAM_WriteStatusRegister v` followed by `FRAM_ReadStatusRegister` in
which the status reads receive the answers of the device, the read returns
`FRAM_Success` and a byte whose bits 3-2 and bit 7 are those of `v`; and on the bus that
carries the answers of the device the write returns after one status read and the read
returns `(v & 0x8C) | 0x40`, whose bit 1 is clear whatever bit 1 of `v` is. -/
theorem FRAM_status_round_trip (v : Nat) (hv : v < 256) (d : Device)
    (hheld : d.held = false) (hsr : d.sr < 256) :
    (∀ b fuel r c1, FRAM_WriteStatusRegister v fuel b = some (r, c1) →
      d.statusAnswers (callTrace b (FRAM_ReadStatusRegister c1).2.2)
          = (List.range ((FRAM_ReadStatusRegister c1).2.2.pos - b.pos)).map (statusAt b) →
        (FRAM_ReadStatusRegister c1).1 = FRAM_Success ∧
          (FRAM_ReadStatusRegister c1).2.1 &&& 0x0C = v &&& 0x0C ∧
          (FRAM_ReadStatusRegister c1).2.1 &&& 0x80 = v &&& 0x80) ∧
      (∀ log fuel, 0 < fuel →
        ∃ c1,
          FRAM_WriteStatusRegister v fuel
              (Bus.mk log (fun i => if i = 0 then d.sr ||| 0x02 else (v &&& 0x8C) ||| 0x40) 0)
            = some (FRAM_Success, c1) ∧
          callTrace
              (Bus.mk log (fun i => if i = 0 then d.sr ||| 0x02 else (v &&& 0x8C) ||| 0x40) 0)
              (FRAM_ReadStatusRegister c1).2.2
            = [wrenExchange, rdsrExchange,
                Exchange.mk [0x01, v] none OpsWakeUp OpsEndTransfer, rdsrExchange] ∧
          d.statusAnswers [wrenExchange, rdsrExchange,
              Exchange.mk [0x01, v] none OpsWakeUp OpsEndTransfer, rdsrExchange]
            = [d.sr ||| 0x02, (v &&& 0x8C) ||| 0x40] ∧
          (FRAM_ReadStatusRegister c1).2.1 = (v &&& 0x8C) ||| 0x40 ∧
          ((v &&& 0x8C) ||| 0x40) &&& 0x02 = 0) := by
  obtain ⟨hbp, hwpen, hlt⟩ := persisted_bits v hv
  constructor
  · intro b fuel r c1 h hcons
    rw [FRAM_WriteStatusRegister_eq] at h
    obtain ⟨_, k, _, _, _, hc⟩ := armed_some _ fuel b r c1 h
    have hread : FRAM_ReadStatusRegister c1
        = (FRAM_Success, statusAt b (k + 1),
            Bus.mk (b.log ++ (wrenExchange :: List.replicate (k + 1) rdsrExchange
              ++ [Exchange.mk [0x01, v] none OpsWakeUp OpsEndTransfer, rdsrExchange]))
              b.miso (b.pos + (k + 2))) := by
      rw [hc, FRAM_ReadStatusRegister_eq]
      simp only [List.append_assoc, List.cons_append, List.singleton_append]
      rfl
    rw [hread] at hcons ⊢
    simp only [callTrace_append] at hcons
    have hpos : b.pos + (k + 2) - b.pos = k + 2 := by omega
    rw [hpos, Device.statusAnswers_round_trip d hheld v (k + 1)] at hcons
    have hget := congrArg (fun l => l[k + 1]?) hcons
    simp only at hget
    rw [List.getElem?_append_right (by simp), List.getElem?_map,
      List.getElem?_range (by omega)] at hget
    simp only [List.length_replicate, Nat.sub_self, List.getElem?_cons_zero,
      Option.map_some', Option.some.injEq] at hget
    refine ⟨rfl, ?_, ?_⟩
    · show statusAt b (k + 1) &&& 0x0C = v &&& 0x0C
      rw [← hget]
      exact hbp
    · show statusAt b (k + 1) &&& 0x80 = v &&& 0x80
      rw [← hget]
      exact hwpen
  · intro log fuel hf
    have hor : d.sr ||| 0x02 < 256 := Nat.or_lt_two_pow (n := 8) hsr (by decide)
    have hset : statusAt
        (Bus.mk log (fun i => if i = 0 then d.sr ||| 0x02 else (v &&& 0x8C) ||| 0x40) 0) 0
          &&& 0x02 ≠ 0 := by
      show (d.sr ||| 0x02) % 256 &&& 0x02 ≠ 0
      rw [Nat.mod_eq_of_lt hor]
      exact latch_set d.sr
    have hrun := armed_done [Exchange.mk [0x01, v] none OpsWakeUp OpsEndTransfer]
      (Bus.mk log (fun i => if i = 0 then d.sr ||| 0x02 else (v &&& 0x8C) ||| 0x40) 0) 0
      (fun i hi => absurd hi (Nat.not_lt_zero i)) hset fuel hf
    refine ⟨Bus.mk (log ++ (wrenExchange :: List.replicate (0 + 1) rdsrExchange
        ++ [Exchange.mk [0x01, v] none OpsWakeUp OpsEndTransfer]))
      (fun i => if i = 0 then d.sr ||| 0x02 else (v &&& 0x8C) ||| 0x40) (0 + (0 + 1)),
      ?_, ?_, ?_, ?_, ?_⟩
    · rw [FRAM_WriteStatusRegister_eq]
      exact hrun
    · rw [FRAM_ReadStatusRegister_eq]
      simp only [callTrace, List.append_assoc, List.drop_left, List.cons_append,
        List.singleton_append, List.replicate_succ, List.replicate_zero, List.nil_append]
    · exact Device.statusAnswers_round_trip d hheld v 1
    · show ((v &&& 0x8C) ||| 0x40) % 256 = (v &&& 0x8C) ||| 0x40
      exact Nat.mod_eq_of_lt hlt
    · revert hv
      clear hbp hwpen hlt
      intro hv
      interval_cases v <;> decide

theorem FRAM_status_round_trip_witness :
    0x8C < 256 ∧ (0x8C &&& 0x8C) ||| 0x40 = 0xCC ∧
      ∃ c1, FRAM_WriteStatusRegister 0x8C 1
            (Bus.mk [] (fun i => if i = 0 then 0x42 else 0xCC) 0)
          = some (FRAM_Success, c1) ∧
        (FRAM_ReadStatusRegister c1).2.1 = 0xCC := by
  refine ⟨by decide, by decide, ?_⟩
  obtain ⟨c1, h1, _, _, h4, _⟩ :=
    (FRAM_status_round_trip 0x8C (by decide) (Device.mk 0x40 false) rfl (by decide)).2
      [] 1 (by decide)
  exact ⟨c1, h1, h4⟩

/-! ## Storage outside the call -/

end FRAM
